import Mathlib

/-!
Verification of the recipe-url-importer core pipeline
(apps/recipe-url-importer/src/recipe_url_importer) against its
natural-language specification.

The Python source is shallowly embedded: pure functions become Lean
functions, the mutable limiter/cache state is passed explicitly, machine
floats used only as timestamps/scores are modelled as `Int` / `ℚ`, and
fallible code returns `Except`.  External library calls (DNS resolution
via `socket.getaddrinfo`, HTML parsing via BeautifulSoup, URL hostname
parsing via `urllib`) enter the model as explicit function parameters.

Python string builtins (`lower`, `strip`, `endswith`, `split`, `join`,
substring `in`) are modelled by executable char-list functions below, so
that every definition evaluates by kernel reduction.
-/

/-- Python `str.lower` (ASCII case folding, which covers every string the
importer compares). -/
def strLower (s : String) : String := ⟨s.data.map Char.toLower⟩

/-- Python `str.endswith` on char lists. -/
def listEndsWith (l suffix : List Char) : Bool :=
  if suffix.length ≤ l.length then decide (l.drop (l.length - suffix.length) = suffix)
  else false

/-- Python `str.endswith`. -/
def strEndsWith (s suffix : String) : Bool := listEndsWith s.data suffix.data

/-- Does `l` start with `pre`? -/
def listStartsWith : List Char → List Char → Bool
  | _, [] => true
  | [], _ :: _ => false
  | c :: cs, p :: ps => c = p && listStartsWith cs ps

/-- Python `str.startswith`. -/
def strStartsWith (s pre : String) : Bool := listStartsWith s.data pre.data

/-- Python substring membership `needle in hay` (true for the empty
needle, as in Python). -/
def listContainsSub (needle : List Char) : List Char → Bool
  | [] => decide (needle = [])
  | c :: cs => listStartsWith (c :: cs) needle || listContainsSub needle cs

/-- Python `needle in hay` for strings. -/
def strContainsSub (hay needle : String) : Bool := listContainsSub needle.data hay.data

/-- Python `str.strip` (whitespace at both ends). -/
def trimChars (cs : List Char) : List Char :=
  ((cs.dropWhile Char.isWhitespace).reverse.dropWhile Char.isWhitespace).reverse

/-- Python `str.strip` on strings. -/
def strTrim (s : String) : String := ⟨trimChars s.data⟩

/-- Python `str.split(sep)` for a one-character separator. -/
def listSplitOn (sep : Char) : List Char → List Char → List (List Char)
  | [], acc => [acc.reverse]
  | c :: rest, acc =>
    if c = sep then acc.reverse :: listSplitOn sep rest []
    else listSplitOn sep rest (c :: acc)

/-- Python `str.split(",")`. -/
def strSplitComma (s : String) : List String :=
  (listSplitOn ',' s.data []).map fun cs => ⟨cs⟩

/-- Python `" ".join(items)`. -/
def strJoinSpace (items : List String) : String :=
  ⟨List.intercalate [' '] (items.map String.data)⟩

/-- Error taxonomy of `exceptions.py` (only the error kind matters here;
the human-readable messages are dropped). -/
inductive ImporterError where
  | invalid_url
  | blocked_host
  | fetch_timeout
  | content_too_large
  | upstream_fetch_failed
  | rate_limited
  | parse_failed
deriving DecidableEq, Repr

/-- The slice of `config.Settings` consumed by the verified components.
Python sets are modelled as lists (only membership is ever used). -/
structure Settings where
  allowed_schemes : List String
  allowed_ports : List Nat
  blocked_hostnames : List String
  block_internal_suffixes : Bool
  blocked_suffixes : List String
  redirect_limit : Nat
  max_html_bytes : Nat
  enable_headless : Bool
  headless_allowlist_domains : List String
  importer_strategy_order : String

/-- A URL as seen through `urllib.parse.urlsplit`: the validator only
reads the `scheme`, `netloc`, `hostname`, `port` and `fragment`
accessors, so the split result is modelled as a record of those fields
(`fragment = none` stands for the empty fragment, which is how
`urlunsplit` treats `fragment=""`). -/
structure Url where
  scheme : String
  netloc : String
  hostname : Option String
  port : Option Nat
  fragment : Option String
deriving DecidableEq, Repr

/-- An address returned by DNS resolution, reduced to the `ipaddress`
classification flags that `_ip_is_blocked` consults. -/
structure IPAddr where
  is_private : Bool
  is_loopback : Bool
  is_link_local : Bool
  is_reserved : Bool
  is_multicast : Bool
deriving DecidableEq, Repr

/-- `url_validation._ip_is_blocked`. -/
def ip_is_blocked (ip : IPAddr) : Bool :=
  ip.is_private || ip.is_loopback || ip.is_link_local || ip.is_reserved || ip.is_multicast

/-- `url_validation._validate_scheme` (raise becomes `.error`). -/
def validate_scheme (parsed : Url) (settings : Settings) : Except ImporterError Unit :=
  if strLower parsed.scheme ∈ settings.allowed_schemes then .ok ()
  else .error .invalid_url

/-- `url_validation._validate_port`. -/
def validate_port (parsed : Url) (settings : Settings) : Except ImporterError Unit :=
  match parsed.port with
  | none => .ok ()
  | some port =>
    if port ∈ settings.allowed_ports then .ok () else .error .invalid_url

/-- `url_validation._validate_hostname`. -/
def validate_hostname (hostname : String) (settings : Settings) : Except ImporterError Unit :=
  if strLower hostname ∈ settings.blocked_hostnames then .error .blocked_host
  else if settings.block_internal_suffixes
      && settings.blocked_suffixes.any (fun suffix => strEndsWith (strLower hostname) suffix) then
    .error .blocked_host
  else .ok ()

/-- DNS resolution (`url_validation._resolve_ips`) is an external call:
it is passed in as a function from hostname to `none` (resolution error,
i.e. `socket.gaierror`) or the list of resolved addresses. -/
abbrev Resolver := String → Option (List IPAddr)

/-- `url_validation.validate_url_target`. -/
def validate_url_target (resolve : Resolver) (url : Url) (settings : Settings) :
    Except ImporterError Url :=
  if url.scheme = "" ∨ url.netloc = "" then .error .invalid_url
  else
    match validate_scheme url settings with
    | .error e => .error e
    | .ok _ =>
      match validate_port url settings with
      | .error e => .error e
      | .ok _ =>
        match validate_hostname (url.hostname.getD "") settings with
        | .error e => .error e
        | .ok _ =>
          match resolve (url.hostname.getD "") with
          | none => .error .blocked_host
          | some ips =>
            if ips = [] then .error .blocked_host
            else if ips.any ip_is_blocked then .error .blocked_host
            else .ok { url with fragment := none }

/-- `url_validation.validate_redirect`. -/
def validate_redirect (resolve : Resolver) (target_url : Url) (settings : Settings)
    (redirect_count : Nat) : Except ImporterError Url :=
  if settings.redirect_limit ≤ redirect_count then .error .invalid_url
  else validate_url_target resolve target_url settings

/-- Spec-side predicate: the URL scheme belongs to the allowed set. -/
def spec_scheme_allowed (u : Url) (s : Settings) : Prop :=
  strLower u.scheme ∈ s.allowed_schemes

instance (u : Url) (s : Settings) : Decidable (spec_scheme_allowed u s) := by
  unfold spec_scheme_allowed
  infer_instance

/-- Spec-side predicate: either no explicit port, or the explicit port is
in the allowed port set. -/
def spec_port_allowed (u : Url) (s : Settings) : Prop :=
  ∀ p, u.port = some p → p ∈ s.allowed_ports

instance (u : Url) (s : Settings) : Decidable (spec_port_allowed u s) := by
  unfold spec_port_allowed
  cases hp : u.port with
  | none => exact isTrue (by simp)
  | some p =>
    refine decidable_of_iff (p ∈ s.allowed_ports) ?_
    constructor
    · intro h q hq
      injection hq with hq
      subst hq
      exact h
    · intro h
      exact h p rfl

/-- Spec-side predicate: the hostname is blocklisted (case-insensitively),
or matches a blocked suffix while suffix blocking is enabled. -/
def spec_hostname_blocked (host : String) (s : Settings) : Prop :=
  strLower host ∈ s.blocked_hostnames
    ∨ (s.block_internal_suffixes = true
        ∧ ∃ suffix ∈ s.blocked_suffixes, strEndsWith (strLower host) suffix = true)

instance (host : String) (s : Settings) : Decidable (spec_hostname_blocked host s) := by
  unfold spec_hostname_blocked
  infer_instance

/-- Spec-side predicate: resolution fails, yields zero addresses, or
yields at least one private/loopback/link-local/reserved/multicast
address. -/
def spec_resolution_blocked (resolve : Resolver) (host : String) : Prop :=
  resolve host = none
    ∨ resolve host = some []
    ∨ ∃ ips, resolve host = some ips ∧ ∃ ip ∈ ips, ip_is_blocked ip = true

instance (resolve : Resolver) (host : String) : Decidable (spec_resolution_blocked resolve host) := by
  unfold spec_resolution_blocked
  cases h : resolve host with
  | none => exact isTrue (Or.inl rfl)
  | some ips =>
    refine decidable_of_iff (ips = [] ∨ ∃ ip ∈ ips, ip_is_blocked ip = true) ?_
    constructor
    · rintro (rfl | hip)
      · exact Or.inr (Or.inl rfl)
      · exact Or.inr (Or.inr ⟨ips, rfl, hip⟩)
    · rintro (heq | heq | ⟨ips', heq, hip⟩)
      · exact Option.noConfusion heq
      · injection heq with h2
        exact Or.inl h2
      · injection heq with h2
        subst h2
        exact Or.inr hip

theorem validate_hostname_eq (host : String) (s : Settings) :
    validate_hostname host s =
      if spec_hostname_blocked host s then .error .blocked_host else .ok () := by
  unfold validate_hostname spec_hostname_blocked
  by_cases hbh : strLower host ∈ s.blocked_hostnames
  case pos => simp [hbh]
  case neg =>
    cases hsuf : s.block_internal_suffixes
        && s.blocked_suffixes.any (fun suffix => strEndsWith (strLower host) suffix) with
    | true =>
      have hc := hsuf
      rw [Bool.and_eq_true, List.any_eq_true] at hc
      simp [hbh, hsuf, hc.1, hc.2]
    | false =>
      have hnot : ¬ (s.block_internal_suffixes = true
          ∧ ∃ x ∈ s.blocked_suffixes, strEndsWith (strLower host) x = true) := by
        intro hcon
        have hT : (s.block_internal_suffixes
            && s.blocked_suffixes.any fun suffix => strEndsWith (strLower host) suffix) = true := by
          rw [Bool.and_eq_true, List.any_eq_true]
          exact hcon
        rw [hsuf] at hT
        exact Bool.noConfusion hT
      simp [hbh, hsuf, hnot]

theorem hostname_resolution_eq (resolve : Resolver) (s : Settings) (host : String)
    (val : Url) :
    (match validate_hostname host s with
      | .error e => .error e
      | .ok _ =>
        match resolve host with
        | none => .error .blocked_host
        | some ips =>
          if ips = [] then .error .blocked_host
          else if ips.any ip_is_blocked then .error .blocked_host
          else .ok val) =
      (if spec_hostname_blocked host s then (.error .blocked_host : Except ImporterError Url)
        else if spec_resolution_blocked resolve host then .error .blocked_host
        else .ok val) := by
  rw [validate_hostname_eq]
  by_cases hhb : spec_hostname_blocked host s
  case pos => rw [if_pos hhb, if_pos hhb]
  case neg =>
    rw [if_neg hhb, if_neg hhb]
    cases hr : resolve host with
    | none =>
      have hblk : spec_resolution_blocked resolve host := Or.inl hr
      dsimp only
      rw [if_pos hblk]
    | some ips =>
      by_cases hemp : ips = []
      case pos =>
        subst hemp
        have hblk : spec_resolution_blocked resolve host := Or.inr (Or.inl hr)
        dsimp only
        rw [if_pos rfl, if_pos hblk]
      case neg =>
        dsimp only
        rw [if_neg hemp]
        cases hany : ips.any ip_is_blocked with
        | true =>
          have hex : ∃ ip ∈ ips, ip_is_blocked ip = true := by
            rw [← List.any_eq_true]
            exact hany
          have hblk : spec_resolution_blocked resolve host :=
            Or.inr (Or.inr ⟨ips, hr, hex⟩)
          rw [if_pos rfl, if_pos hblk]
        | false =>
          have hnoex : ¬ ∃ ip ∈ ips, ip_is_blocked ip = true := by
            intro hcon
            have hT := List.any_eq_true.mpr hcon
            rw [hany] at hT
            exact Bool.noConfusion hT
          have hnb : ¬ spec_resolution_blocked resolve host := by
            intro hcon
            have hcon' : resolve host = none ∨ resolve host = some []
                ∨ ∃ ips', resolve host = some ips' ∧ ∃ ip ∈ ips', ip_is_blocked ip = true := hcon
            rcases hcon' with h0 | h0 | ⟨ips', h0, hip⟩
            · rw [hr] at h0
              exact Option.noConfusion h0
            · rw [hr] at h0
              injection h0 with h0
              exact hemp h0
            · rw [hr] at h0
              injection h0 with h0
              subst h0
              exact hnoex hip
          rw [if_neg (fun h => Bool.noConfusion h), if_neg hnb]

theorem validate_url_target_eq (resolve : Resolver) (u : Url) (s : Settings)
    (hwf : ¬(u.scheme = "" ∨ u.netloc = "")) :
    validate_url_target resolve u s =
      if ¬ spec_scheme_allowed u s then .error .invalid_url
      else if ¬ spec_port_allowed u s then .error .invalid_url
      else if spec_hostname_blocked (u.hostname.getD "") s then .error .blocked_host
      else if spec_resolution_blocked resolve (u.hostname.getD "") then .error .blocked_host
      else .ok { u with fragment := none } := by
  obtain ⟨usch, unl, uhost, uport, ufrag⟩ := u
  unfold validate_url_target validate_scheme validate_port
  rw [if_neg hwf]
  by_cases hs : strLower usch ∈ s.allowed_schemes
  case neg =>
    have hns : ¬ spec_scheme_allowed ⟨usch, unl, uhost, uport, ufrag⟩ s := hs
    rw [if_pos hns]
    simp [hs]
  case pos =>
    have hys : spec_scheme_allowed ⟨usch, unl, uhost, uport, ufrag⟩ s := hs
    rw [if_neg (not_not_intro hys)]
    simp only [hs, if_true, ite_true]
    cases uport with
    | none =>
      have hpa : spec_port_allowed ⟨usch, unl, uhost, none, ufrag⟩ s := by
        intro q hq
        exact Option.noConfusion hq
      rw [if_neg (not_not_intro hpa)]
      exact hostname_resolution_eq resolve s (uhost.getD "")
        ⟨usch, unl, uhost, none, none⟩
    | some p =>
      by_cases hp : p ∈ s.allowed_ports
      case pos =>
        have hpa : spec_port_allowed ⟨usch, unl, uhost, some p, ufrag⟩ s := by
          intro q hq
          injection hq with hq
          subst hq
          exact hp
        rw [if_neg (not_not_intro hpa)]
        simp only [hp, if_true, ite_true]
        exact hostname_resolution_eq resolve s (uhost.getD "")
          ⟨usch, unl, uhost, some p, none⟩
      case neg =>
        have hna : ¬ spec_port_allowed ⟨usch, unl, uhost, some p, ufrag⟩ s := by
          intro hpa
          exact hp (hpa p rfl)
        rw [if_pos hna]
        simp [hp]

/-- C1: for every input URL (with a scheme and netloc present) and
configuration, `validate_url_target` fails with `InvalidUrl` when the
scheme is outside the allowed set or an explicit port is outside the
allowed port set; fails with `BlockedHost` when the hostname is
blocklisted (case-insensitively, including suffix blocking), fails to
resolve, resolves to zero addresses, or any resolved address is
private/loopback/link-local/reserved/multicast (every resolved address
must pass); and otherwise returns the URL unchanged except for fragment
removal. -/
theorem validate_url_target_spec (resolve : Resolver) (u : Url) (s : Settings)
    (hscheme : u.scheme ≠ "") (hnetloc : u.netloc ≠ "") :
    ((¬ spec_scheme_allowed u s ∨ ¬ spec_port_allowed u s) →
        validate_url_target resolve u s = .error .invalid_url)
    ∧ (spec_scheme_allowed u s → spec_port_allowed u s →
        (spec_hostname_blocked (u.hostname.getD "") s ∨
          spec_resolution_blocked resolve (u.hostname.getD "")) →
        validate_url_target resolve u s = .error .blocked_host)
    ∧ (spec_scheme_allowed u s → spec_port_allowed u s →
        ¬ spec_hostname_blocked (u.hostname.getD "") s →
        ¬ spec_resolution_blocked resolve (u.hostname.getD "") →
        validate_url_target resolve u s = .ok { u with fragment := none }) := by
  have hwf : ¬(u.scheme = "" ∨ u.netloc = "") := by
    rintro (h | h)
    · exact hscheme h
    · exact hnetloc h
  have heq := validate_url_target_eq resolve u s hwf
  refine ⟨?_, ?_, ?_⟩
  · rintro (h | h) <;> rw [heq]
    · rw [if_pos h]
    · by_cases hs : spec_scheme_allowed u s
      · rw [if_neg (not_not_intro hs), if_pos h]
      · rw [if_pos hs]
  · intro h1 h2 h3
    rw [heq, if_neg (not_not_intro h1), if_neg (not_not_intro h2)]
    rcases h3 with h3 | h3
    · rw [if_pos h3]
    · by_cases hb : spec_hostname_blocked (u.hostname.getD "") s
      · rw [if_pos hb]
      · rw [if_neg hb, if_pos h3]
  · intro h1 h2 h3 h4
    rw [heq, if_neg (not_not_intro h1), if_neg (not_not_intro h2), if_neg h3, if_neg h4]

theorem validate_url_target_spec_witness :
    validate_url_target
      (fun _ => some [⟨false, false, false, false, false⟩])
      { scheme := "https", netloc := "example.com", hostname := some "example.com",
        port := some 443, fragment := some "frag" }
      { allowed_schemes := ["http", "https"], allowed_ports := [80, 443],
        blocked_hostnames := ["localhost"], block_internal_suffixes := true,
        blocked_suffixes := [".local"], redirect_limit := 3, max_html_bytes := 3000000,
        enable_headless := false, headless_allowlist_domains := [],
        importer_strategy_order := "jsonld,microdata,heuristic,headless" } =
      .ok { scheme := "https", netloc := "example.com", hostname := some "example.com",
            port := some 443, fragment := none } :=
  (validate_url_target_spec _ _ _ (by decide) (by decide)).2.2
    (by decide) (by decide) (by decide) (by decide)

/-- C2: `validate_redirect` fails with `InvalidUrl` as soon as the hop
count has reached the configured redirect limit, and does so
independently of the DNS resolver (hence before any network access on
the target); below the limit it performs exactly the full
`validate_url_target` validation applied to an original URL. -/
theorem validate_redirect_spec (target : Url) (s : Settings) (n : Nat) :
    (s.redirect_limit ≤ n →
        ∀ resolve : Resolver, validate_redirect resolve target s n = .error .invalid_url)
    ∧ (n < s.redirect_limit →
        ∀ resolve : Resolver,
          validate_redirect resolve target s n = validate_url_target resolve target s) := by
  constructor
  · intro h resolve
    unfold validate_redirect
    rw [if_pos h]
  · intro h resolve
    unfold validate_redirect
    rw [if_neg (by omega)]

theorem validate_redirect_spec_witness :
    (validate_redirect (fun _ => none)
        { scheme := "https", netloc := "example.com", hostname := some "example.com",
          port := none, fragment := none }
        { allowed_schemes := ["http", "https"], allowed_ports := [80, 443],
          blocked_hostnames := [], block_internal_suffixes := false,
          blocked_suffixes := [], redirect_limit := 3, max_html_bytes := 3000000,
          enable_headless := false, headless_allowlist_domains := [],
          importer_strategy_order := "jsonld" } 3 = .error .invalid_url)
    ∧ (validate_redirect (fun _ => none)
        { scheme := "https", netloc := "example.com", hostname := some "example.com",
          port := none, fragment := none }
        { allowed_schemes := ["http", "https"], allowed_ports := [80, 443],
          blocked_hostnames := [], block_internal_suffixes := false,
          blocked_suffixes := [], redirect_limit := 3, max_html_bytes := 3000000,
          enable_headless := false, headless_allowlist_domains := [],
          importer_strategy_order := "jsonld" } 0 =
        validate_url_target (fun _ => none)
          { scheme := "https", netloc := "example.com", hostname := some "example.com",
            port := none, fragment := none }
          { allowed_schemes := ["http", "https"], allowed_ports := [80, 443],
            blocked_hostnames := [], block_internal_suffixes := false,
            blocked_suffixes := [], redirect_limit := 3, max_html_bytes := 3000000,
            enable_headless := false, headless_allowlist_domains := [],
            importer_strategy_order := "jsonld" }) :=
  ⟨(validate_redirect_spec _ _ _).1 (by decide) _,
   (validate_redirect_spec _ _ _).2 (by decide) _⟩

/-- `fetch.client.FetchResult` (elapsed time in ms as an integer). -/
structure FetchResult where
  content : String
  status_code : Int
  elapsed_ms : Int
  final_url : String
  upstream_status : Int

/-- One HTTP response as the streaming loop of `fetch_html` sees it: the
declared `Content-Length` header (never consulted by the loop) and the
body chunks produced by `aiter_bytes` (bytes as naturals). -/
structure HttpResponse where
  contentLength : Option Nat
  chunks : List (List Nat)

/-- The body-streaming loop of `fetch_html`: accumulate `total_read`
over the received chunks, abort with `ContentTooLarge` the moment the
counter exceeds `max_html_bytes`, otherwise concatenate the chunks. -/
def stream_body (max_html_bytes : Nat) : List (List Nat) → Nat → Except ImporterError (List Nat)
  | [], _ => .ok []
  | chunk :: rest, total_read =>
    let t := total_read + chunk.length
    if max_html_bytes < t then .error .content_too_large
    else
      match stream_body max_html_bytes rest t with
      | .error e => .error e
      | .ok tail_bytes => .ok (chunk ++ tail_bytes)

/-- Reading a response body in `fetch_html`: the loop starts with
`total_read = 0` and never reads the `Content-Length` header. -/
def read_response_body (settings : Settings) (r : HttpResponse) : Except ImporterError (List Nat) :=
  stream_body settings.max_html_bytes r.chunks 0

theorem stream_body_ok (m : Nat) (chunks : List (List Nat)) :
    ∀ acc : Nat, acc + (chunks.map List.length).sum ≤ m →
      stream_body m chunks acc = .ok chunks.flatten := by
  induction chunks with
  | nil =>
    intro acc _
    rfl
  | cons c rest ih =>
    intro acc h
    rw [List.map_cons, List.sum_cons] at h
    unfold stream_body
    have hle : ¬ (m < acc + c.length) := by omega
    rw [if_neg hle]
    rw [ih (acc + c.length) (by omega)]
    rw [List.flatten_cons]

theorem stream_body_err (m : Nat) (chunks : List (List Nat)) :
    ∀ (acc k : Nat), acc ≤ m →
      m < acc + (((chunks.take k).map List.length).sum) →
      stream_body m chunks acc = .error .content_too_large := by
  induction chunks with
  | nil =>
    intro acc k h1 h2
    simp at h2
    omega
  | cons c rest ih =>
    intro acc k h1 h2
    cases k with
    | zero =>
      simp at h2
      omega
    | succ k =>
      rw [List.take_succ_cons, List.map_cons, List.sum_cons] at h2
      unfold stream_body
      by_cases hov : m < acc + c.length
      · rw [if_pos hov]
      · rw [if_neg hov]
        rw [ih (acc + c.length) k (by omega) (by omega)]

/-- C3: `fetch_html` maintains a running byte counter over the chunks
actually received and fails with `ContentTooLarge` as soon as the
counter exceeds the configured `max_html_bytes` (witnessed by a prefix
of the chunk stream already over the limit); a stream whose total stays
within the limit is returned whole; and the result never depends on the
declared `Content-Length` header. -/
theorem fetch_stream_size_limit (s : Settings) (r : HttpResponse) :
    ((∃ k, s.max_html_bytes < (((r.chunks.take k).map List.length).sum) ) →
        read_response_body s r = .error .content_too_large)
    ∧ ((r.chunks.map List.length).sum ≤ s.max_html_bytes →
        read_response_body s r = .ok r.chunks.flatten)
    ∧ (∀ cl : Option Nat,
        read_response_body s { r with contentLength := cl } = read_response_body s r) := by
  refine ⟨?_, ?_, ?_⟩
  · rintro ⟨k, hk⟩
    exact stream_body_err s.max_html_bytes r.chunks 0 k (Nat.zero_le _) (by omega)
  · intro h
    exact stream_body_ok s.max_html_bytes r.chunks 0 (by omega)
  · intro cl
    rfl

theorem fetch_stream_size_limit_witness :
    (read_response_body
        { allowed_schemes := [], allowed_ports := [], blocked_hostnames := [],
          block_internal_suffixes := false, blocked_suffixes := [], redirect_limit := 3,
          max_html_bytes := 4, enable_headless := false, headless_allowlist_domains := [],
          importer_strategy_order := "" }
        { contentLength := some 2, chunks := [[1, 2, 3], [4, 5]] } =
      .error .content_too_large)
    ∧ (read_response_body
        { allowed_schemes := [], allowed_ports := [], blocked_hostnames := [],
          block_internal_suffixes := false, blocked_suffixes := [], redirect_limit := 3,
          max_html_bytes := 4, enable_headless := false, headless_allowlist_domains := [],
          importer_strategy_order := "" }
        { contentLength := some 2, chunks := [[1, 2], [3, 4]] } =
      .ok [1, 2, 3, 4]) :=
  ⟨(fetch_stream_size_limit _ _).1 ⟨2, by decide⟩,
   (fetch_stream_size_limit _ _).2.1 (by decide)⟩

/-- `rate_limit.backstop.SlidingWindowLimiter`: per-key deques of event
timestamps (`time.time()` values modelled as integers). -/
structure SlidingWindowLimiter where
  limit : Nat
  window_seconds : Int
  events : String → List Int

/-- The body of `SlidingWindowLimiter.allow` acting on one key's deque:
pop from the left while the head is older than `now - window_seconds`,
then admit (recording `now`) only when the remaining count is below the
limit. -/
def allow_core (limit : Nat) (window_seconds : Int) (bucket : List Int) (now : Int) :
    Bool × List Int :=
  let window_start := now - window_seconds
  let b := bucket.dropWhile (fun t => decide (t < window_start))
  if limit ≤ b.length then (false, b)
  else (true, b ++ [now])

/-- `SlidingWindowLimiter.allow` (the deque mutation becomes an updated
events map). -/
def SlidingWindowLimiter.allow (L : SlidingWindowLimiter) (key : String) (now : Int) :
    Bool × SlidingWindowLimiter :=
  let r := allow_core L.limit L.window_seconds (L.events key) now
  (r.1, { L with events := fun k => if k = key then r.2 else L.events k })

/-- Iterate `allow_core` over a list of call times on a single bucket. -/
def run_allow (limit : Nat) (window_seconds : Int) : List Int → List Int → List Bool × List Int
  | bucket, [] => ([], bucket)
  | bucket, t :: ts =>
    let r := allow_core limit window_seconds bucket t
    let rest := run_allow limit window_seconds r.2 ts
    (r.1 :: rest.1, rest.2)

/-- Iterate `SlidingWindowLimiter.allow` on one key over a list of call
times. -/
def run_allow_key : SlidingWindowLimiter → String → List Int → List Bool × SlidingWindowLimiter
  | L, _, [] => ([], L)
  | L, key, t :: ts =>
    let r := L.allow key t
    let rest := run_allow_key r.2 key ts
    (r.1 :: rest.1, rest.2)

theorem dropWhile_eq_self_of_all {α : Type} (p : α → Bool) :
    ∀ l : List α, (∀ x ∈ l, p x = false) → l.dropWhile p = l := by
  intro l
  induction l with
  | nil => intro _; rfl
  | cons h t _ =>
    intro hall
    rw [List.dropWhile_cons, hall h (by simp)]
    simp

theorem dropWhile_eq_nil_of_all {α : Type} (p : α → Bool) :
    ∀ l : List α, (∀ x ∈ l, p x = true) → l.dropWhile p = [] := by
  intro l
  induction l with
  | nil => intro _; rfl
  | cons h t ih =>
    intro hall
    rw [List.dropWhile_cons, hall h (by simp)]
    simp only [if_true, ite_true]
    exact ih (fun x hx => hall x (by simp [hx]))

theorem allow_core_no_evict (N : Nat) (W : Int) (bucket : List Int) (now : Int)
    (h : ∀ x ∈ bucket, ¬ (x < now - W)) :
    allow_core N W bucket now =
      (decide (bucket.length < N),
        if bucket.length < N then bucket ++ [now] else bucket) := by
  unfold allow_core
  have hd : bucket.dropWhile (fun t => decide (t < now - W)) = bucket :=
    dropWhile_eq_self_of_all _ bucket (fun x hx => decide_eq_false (h x hx))
  simp only [hd]
  by_cases hlen : N ≤ bucket.length
  · have h1 : ¬ bucket.length < N := by omega
    rw [if_pos hlen, if_neg h1]
    simp [h1]
  · have h1 : bucket.length < N := by omega
    rw [if_neg hlen, if_pos h1]
    simp [h1]

/-- The admit pattern of a no-eviction call sequence: with `k` entries
already recorded and limit `N`, the next `min n (N-k)` calls are
admitted and the remaining ones rejected. -/
def admit_pattern (N k n : Nat) : List Bool :=
  List.replicate (min n (N - k)) true ++ List.replicate (n - (N - k)) false

theorem admit_pattern_succ_admit (N k n : Nat) (h : k < N) :
    admit_pattern N k (n + 1) = true :: admit_pattern N (k + 1) n := by
  unfold admit_pattern
  have h1 : min (n + 1) (N - k) = (min n (N - (k + 1))) + 1 := by omega
  have h2 : (n + 1) - (N - k) = n - (N - (k + 1)) := by omega
  rw [h1, h2, List.replicate_succ]
  simp

theorem admit_pattern_succ_reject (N k n : Nat) (h : ¬ k < N) :
    admit_pattern N k (n + 1) = false :: admit_pattern N k n := by
  unfold admit_pattern
  have hz : N - k = 0 := by omega
  rw [hz]
  simp [List.replicate_succ]

theorem run_allow_no_evict (N : Nat) (W : Int) :
    ∀ (ts bucket : List Int),
      (∀ x ∈ bucket ++ ts, ∀ t ∈ ts, ¬ (x < t - W)) →
      run_allow N W bucket ts =
        (admit_pattern N bucket.length ts.length, bucket ++ ts.take (N - bucket.length)) := by
  intro ts
  induction ts with
  | nil =>
    intro bucket _
    simp [run_allow, admit_pattern]
  | cons t ts ih =>
    intro bucket hyp
    have hstep : ∀ x ∈ bucket, ¬ (x < t - W) := by
      intro x hx
      exact hyp x (by simp [hx]) t (by simp)
    unfold run_allow
    rw [allow_core_no_evict N W bucket t hstep]
    by_cases hlt : bucket.length < N
    case pos =>
      rw [if_pos hlt, decide_eq_true hlt]
      dsimp only
      have hyp' : ∀ x ∈ (bucket ++ [t]) ++ ts, ∀ u ∈ ts, ¬ (x < u - W) := by
        intro x hx u hu
        have hx' : x ∈ bucket ++ t :: ts := by
          simp at hx ⊢
          tauto
        exact hyp x hx' u (by simp [hu])
      rw [ih (bucket ++ [t]) hyp']
      have hN : N - bucket.length = (N - (bucket.length + 1)) + 1 := by omega
      dsimp only
      rw [List.length_append, List.length_singleton, List.length_cons,
        admit_pattern_succ_admit N bucket.length ts.length hlt, hN, List.take_succ_cons]
      simp [List.append_assoc]
    case neg =>
      rw [if_neg hlt, decide_eq_false hlt]
      dsimp only
      have hyp' : ∀ x ∈ bucket ++ ts, ∀ u ∈ ts, ¬ (x < u - W) := by
        intro x hx u hu
        have hx' : x ∈ bucket ++ t :: ts := by
          simp at hx ⊢
          tauto
        exact hyp x hx' u (by simp [hu])
      rw [ih bucket hyp']
      have hz : N - bucket.length = 0 := by omega
      dsimp only
      rw [List.length_cons, admit_pattern_succ_reject N bucket.length ts.length hlt, hz]
      simp

theorem run_allow_key_eq :
    ∀ (ts : List Int) (L : SlidingWindowLimiter) (key : String),
      run_allow_key L key ts =
        ((run_allow L.limit L.window_seconds (L.events key) ts).1,
          { L with events := fun k =>
              if k = key then (run_allow L.limit L.window_seconds (L.events key) ts).2
              else L.events k }) := by
  intro ts
  induction ts with
  | nil =>
    intro L key
    unfold run_allow_key run_allow
    refine Prod.ext rfl ?_
    cases L with
    | mk limit window events =>
      simp only [SlidingWindowLimiter.mk.injEq, true_and]
      funext k
      by_cases h : k = key
      · subst h
        simp
      · simp [h]
  | cons t ts ih =>
    intro L key
    unfold run_allow_key run_allow
    dsimp only
    unfold SlidingWindowLimiter.allow
    dsimp only
    rw [ih]
    refine Prod.ext ?_ ?_
    · simp
    · simp only []
      cases L with
      | mk limit window events =>
        simp only [SlidingWindowLimiter.mk.injEq, true_and]
        funext k
        by_cases h : k = key
        · subst h
          simp
        · simp [h]

/-- C4: each `allow` call on a sliding-window limiter first evicts
timestamps older than `now - window` from the front of the deque, then
admits and records `now` only if fewer than `limit` timestamps remain,
else rejects without recording; consequently, starting from an empty
bucket, the first N calls within one window are admitted, the (N+1)-th
is rejected, and once the window has elapsed past all recorded
timestamps a further call is admitted again. -/
theorem sliding_window_limiter_spec (N : Nat) (W : Int) (L : SlidingWindowLimiter)
    (key : String) (ts : List Int) (t' : Int)
    (hN : 0 < N) (hlim : L.limit = N) (hwin : L.window_seconds = W)
    (hempty : L.events key = [])
    (hlen : ts.length = N + 1)
    (hinwin : ∀ x ∈ ts, ∀ t ∈ ts, ¬ (x < t - W))
    (hexp : ∀ x ∈ ts, x < t' - W) :
    (∀ (bucket : List Int) (now : Int),
        allow_core N W bucket now =
          (if (bucket.dropWhile (fun u => decide (u < now - W))).length < N
            then (true, bucket.dropWhile (fun u => decide (u < now - W)) ++ [now])
            else (false, bucket.dropWhile (fun u => decide (u < now - W)))))
    ∧ (run_allow_key L key ts).1 = List.replicate N true ++ [false]
    ∧ ((run_allow_key L key ts).2.allow key t').1 = true := by
  have hb := run_allow_key_eq ts L key
  have hnoevict := run_allow_no_evict N W ts [] (by
    intro x hx u hu
    simp only [List.nil_append] at hx
    exact hinwin x hx u hu)
  simp only [List.length_nil, List.nil_append, Nat.sub_zero] at hnoevict
  refine ⟨?_, ?_, ?_⟩
  · intro bucket now
    unfold allow_core
    dsimp only
    by_cases h : N ≤ (bucket.dropWhile (fun u => decide (u < now - W))).length
    · rw [if_pos h, if_neg (by omega)]
    · rw [if_neg h, if_pos (by omega)]
  · rw [hb]
    dsimp only
    rw [hlim, hwin, hempty, hnoevict]
    dsimp only
    rw [hlen]
    unfold admit_pattern
    have h1 : min (N + 1) (N - 0) = N := by omega
    have h2 : (N + 1) - (N - 0) = 1 := by omega
    rw [h1, h2, List.replicate_one]
  · rw [hb]
    dsimp only
    unfold SlidingWindowLimiter.allow
    dsimp only
    rw [if_pos rfl]
    rw [hlim, hwin, hempty, hnoevict]
    dsimp only
    unfold allow_core
    dsimp only
    have hall : (ts.take N).dropWhile (fun u => decide (u < t' - W)) = [] :=
      dropWhile_eq_nil_of_all _ (ts.take N)
        (fun x hx => decide_eq_true (hexp x (List.take_subset N ts hx)))
    rw [hall]
    have hnle : ¬ (N ≤ ([] : List Int).length) := by
      simp
      omega
    rw [if_neg hnle]

theorem sliding_window_limiter_spec_witness :
    (run_allow_key ⟨2, 60, fun _ => []⟩ "k" [0, 1, 2]).1 = List.replicate 2 true ++ [false]
    ∧ ((run_allow_key ⟨2, 60, fun _ => []⟩ "k" [0, 1, 2]).2.allow "k" 100).1 = true :=
  ⟨(sliding_window_limiter_spec 2 60 ⟨2, 60, fun _ => []⟩ "k" [0, 1, 2] 100
      (by decide) rfl rfl rfl (by decide) (by decide) (by decide)).2.1,
   (sliding_window_limiter_spec 2 60 ⟨2, 60, fun _ => []⟩ "k" [0, 1, 2] 100
      (by decide) rfl rfl rfl (by decide) (by decide) (by decide)).2.2⟩

/-- `rate_limit.backstop.BackstopRateLimiter` (both sub-limiter windows
are fixed at 60 seconds by the constructor). -/
structure BackstopRateLimiter where
  per_ip : SlidingWindowLimiter
  per_domain : SlidingWindowLimiter

/-- `BackstopRateLimiter.__init__`. -/
def BackstopRateLimiter.init (per_ip_limit per_domain_limit : Nat) : BackstopRateLimiter :=
  { per_ip := ⟨per_ip_limit, 60, fun _ => []⟩,
    per_domain := ⟨per_domain_limit, 60, fun _ => []⟩ }

/-- `BackstopRateLimiter.check`: both sub-limiters are always consulted
(statement evaluation is not short-circuited across the two lines of the
source), and the result is the conjunction. -/
def BackstopRateLimiter.check (B : BackstopRateLimiter) (ip domain : String) (now : Int) :
    Bool × BackstopRateLimiter :=
  let r_ip := B.per_ip.allow ip now
  let r_domain := B.per_domain.allow domain now
  (r_ip.1 && r_domain.1, { per_ip := r_ip.2, per_domain := r_domain.2 })

theorem allow_core_admitted (N : Nat) (W : Int) (bucket : List Int) (now : Int)
    (h : (allow_core N W bucket now).1 = true) :
    (allow_core N W bucket now).2 =
      bucket.dropWhile (fun u => decide (u < now - W)) ++ [now] := by
  unfold allow_core at h ⊢
  dsimp only at h ⊢
  by_cases hc : N ≤ (bucket.dropWhile (fun u => decide (u < now - W))).length
  · rw [if_pos hc] at h
    simp at h
  · rw [if_neg hc]

/-- C5: `BackstopRateLimiter.check` evaluates both the per-IP and the
per-domain sub-limiter unconditionally and applies both side effects
(the updated state holds both sub-limiters' results), returns true iff
both admit, and a caller rejected on the IP axis that is admitted on the
domain axis still consumes a slot there (the call time is recorded at
the end of the domain bucket). -/
theorem backstop_check_spec (B : BackstopRateLimiter) (ip domain : String) (now : Int) :
    ((B.check ip domain now).1 = ((B.per_ip.allow ip now).1 && (B.per_domain.allow domain now).1))
    ∧ (B.check ip domain now).2.per_ip = (B.per_ip.allow ip now).2
    ∧ (B.check ip domain now).2.per_domain = (B.per_domain.allow domain now).2
    ∧ ((B.check ip domain now).1 = true ↔
        ((B.per_ip.allow ip now).1 = true ∧ (B.per_domain.allow domain now).1 = true))
    ∧ ((B.per_ip.allow ip now).1 = false → (B.per_domain.allow domain now).1 = true →
        ∃ evicted, ((B.check ip domain now).2.per_domain.events domain) = evicted ++ [now]) := by
  refine ⟨rfl, rfl, rfl, ?_, ?_⟩
  · simp [BackstopRateLimiter.check, Bool.and_eq_true]
  · intro _ h2
    unfold BackstopRateLimiter.check
    dsimp only
    unfold SlidingWindowLimiter.allow at h2 ⊢
    dsimp only at h2 ⊢
    rw [if_pos rfl]
    exact ⟨_, allow_core_admitted _ _ _ _ h2⟩

theorem backstop_check_spec_witness :
    ∃ evicted,
      (((BackstopRateLimiter.init 0 1).check "1.2.3.4" "example.com" 0).2.per_domain.events
        "example.com") = evicted ++ [0] :=
  (backstop_check_spec (BackstopRateLimiter.init 0 1) "1.2.3.4" "example.com" 0).2.2.2.2
    rfl rfl

/-- `cache.memory_cache.MemoryCache`: expiry instants and the clock are
integers; the backing dict maps keys to `(expires_at, value)`. -/
structure MemoryCache (V : Type) where
  ttl_seconds : Int
  store : String → Option (Int × V)

/-- `MemoryCache.get` (lazy expiry: an expired entry is popped at read
time and `none` returned). -/
def MemoryCache.get {V : Type} (c : MemoryCache V) (key : String) (now : Int) :
    Option V × MemoryCache V :=
  match c.store key with
  | none => (none, c)
  | some item =>
    if item.1 < now then
      (none, { c with store := fun k => if k = key then none else c.store k })
    else (some item.2, c)

/-- `MemoryCache.set`: store the value with expiry `now + ttl_seconds`,
overwriting any prior entry. -/
def MemoryCache.set {V : Type} (c : MemoryCache V) (key : String) (value : V) (now : Int) :
    MemoryCache V :=
  { c with store := fun k => if k = key then some (now + c.ttl_seconds, value) else c.store k }

/-- C6: `set` stores the value under an expiry instant computed as the
write time plus the fixed TTL, overwriting whatever was there and
touching no other key; a `get` at or before the expiry instant returns
the value; a `get` after the expiry instant returns `none` and removes
the entry (expiry is enforced at read time only). -/
theorem memory_cache_spec {V : Type} (c : MemoryCache V) (key : String) (v : V)
    (t_set t_get : Int) :
    ((c.set key v t_set).store key = some (t_set + c.ttl_seconds, v))
    ∧ (t_get ≤ t_set + c.ttl_seconds →
        ((c.set key v t_set).get key t_get).1 = some v)
    ∧ (t_set + c.ttl_seconds < t_get →
        ((c.set key v t_set).get key t_get).1 = none
        ∧ ((c.set key v t_set).get key t_get).2.store key = none)
    ∧ (∀ k, k ≠ key → (c.set key v t_set).store k = c.store k) := by
  refine ⟨?_, ?_, ?_, ?_⟩
  · unfold MemoryCache.set
    dsimp only
    rw [if_pos rfl]
  · intro h
    unfold MemoryCache.get MemoryCache.set
    dsimp only
    rw [if_pos rfl]
    dsimp only
    rw [if_neg (by omega)]
  · intro h
    unfold MemoryCache.get MemoryCache.set
    dsimp only
    rw [if_pos rfl]
    dsimp only
    rw [if_pos h]
    refine ⟨rfl, ?_⟩
    dsimp only
    rw [if_pos rfl]
  · intro k hk
    unfold MemoryCache.set
    dsimp only
    rw [if_neg hk]

theorem memory_cache_spec_witness :
    ((MemoryCache.set ⟨10, fun _ => none⟩ "k" (5 : Nat) 100).get "k" 105).1 = some 5
    ∧ ((MemoryCache.set ⟨10, fun _ => none⟩ "k" (5 : Nat) 100).get "k" 200).1 = none :=
  ⟨(memory_cache_spec ⟨10, fun _ => none⟩ "k" 5 100 105).2.1 (by decide),
   ((memory_cache_spec ⟨10, fun _ => none⟩ "k" 5 100 200).2.2.1 (by decide)).1⟩

/-- Digits captured by a `\d+` group, interpreted as a decimal number
(Python `int`). -/
def digitsToNat (ds : List Char) : Nat :=
  ds.foldl (fun a c => a * 10 + (c.toNat - 48)) 0

/-- One optional regex group `(?:(\d+)X)?` of `DURATION_RE`: greedily
take digits and require the (case-insensitive) unit letter right after;
on failure the optional group consumes nothing. -/
def durComponent (letter : Char) (cs : List Char) : Option Nat × List Char :=
  let ds := cs.takeWhile Char.isDigit
  let rest := cs.dropWhile Char.isDigit
  match rest with
  | [] => (none, cs)
  | c :: tail =>
    if ds ≠ [] ∧ c.toLower = letter then (some (digitsToNat ds), tail)
    else (none, cs)

/-- `utils.time.DURATION_RE`, the anchored case-insensitive regex
`^P(?:(\d+)D)?(?:T(?:(\d+)H)?(?:(\d+)M)?(?:(\d+)S)?)?$`, as a
deterministic parser returning the four captured groups (an absent group
reads as 0, matching `int(match.group(..) or 0)` in the source). -/
def parse_duration (cs : List Char) : Option (Nat × Nat × Nat × Nat) :=
  match cs with
  | [] => none
  | p :: rest =>
    if p.toLower = 'p' then
      match durComponent 'd' rest with
      | (days, cs1) =>
        match cs1 with
        | [] => some (days.getD 0, 0, 0, 0)
        | t :: cs2 =>
          if t.toLower = 't' then
            match durComponent 'h' cs2 with
            | (hours, cs3) =>
              match durComponent 'm' cs3 with
              | (minutes, cs4) =>
                match durComponent 's' cs4 with
                | (seconds, cs5) =>
                  if cs5 = [] then
                    some (days.getD 0, hours.getD 0, minutes.getD 0, seconds.getD 0)
                  else none
          else none
    else none

/-- `utils.time.duration_to_minutes` (`none` models Python `None`; the
`if not duration` falsiness test also catches the empty string). -/
def duration_to_minutes (duration : Option String) : Option Nat :=
  match duration with
  | none => none
  | some s =>
    if s.data = [] then none
    else
      match parse_duration (trimChars s.data) with
      | none => none
      | some (days, hours, minutes, seconds) =>
        let total_minutes := days * 24 * 60 + hours * 60 + minutes + seconds / 60
        if 0 < total_minutes then some total_minutes else none

/-- Decimal rendering of a natural number (most significant digit
first). -/
def natDigitChars (n : Nat) : List Char :=
  if n < 10 then [Char.ofNat (48 + n)]
  else natDigitChars (n / 10) ++ [Char.ofNat (48 + n % 10)]
termination_by n
decreasing_by exact Nat.div_lt_self (by omega) (by omega)

/-- Upper- or lower-case variant of a duration letter. -/
def caseChar (lower : Bool) (c : Char) : Char := if lower then c.toLower else c

/-- Rendering of one optional duration component. -/
def renderComp (letter : Char) : Option Nat → List Char
  | none => []
  | some n => natDigitChars n ++ [letter]

/-- Rendering of the optional `T...` block. -/
def tPartChars (lower : Bool) : Option (Option Nat × Option Nat × Option Nat) → List Char
  | none => []
  | some (h, m, s) =>
    caseChar lower 'T' ::
      (renderComp (caseChar lower 'H') h ++
        (renderComp (caseChar lower 'M') m ++ renderComp (caseChar lower 'S') s))

/-- A duration string of the shape `P[nD][T[nH][nM][nS]]`, upper- or
lower-case. -/
def renderDuration (lower : Bool) (d : Option Nat)
    (tpart : Option (Option Nat × Option Nat × Option Nat)) : String :=
  ⟨caseChar lower 'P' :: (renderComp (caseChar lower 'D') d ++ tPartChars lower tpart)⟩

theorem digitChar_isDigit (k : Nat) (h : k < 10) : (Char.ofNat (48 + k)).isDigit = true := by
  interval_cases k <;> decide

theorem digitChar_toNat (k : Nat) (h : k < 10) : (Char.ofNat (48 + k)).toNat = 48 + k := by
  interval_cases k <;> decide

theorem digitChar_not_whitespace (k : Nat) (h : k < 10) :
    (Char.ofNat (48 + k)).isWhitespace = false := by
  interval_cases k <;> decide

theorem natDigitChars_digits (n : Nat) : ∀ c ∈ natDigitChars n, c.isDigit = true := by
  induction n using Nat.strong_induction_on with
  | _ n ih =>
    rw [natDigitChars]
    by_cases h : n < 10
    · rw [if_pos h]
      intro c hc
      rw [List.mem_singleton] at hc
      subst hc
      exact digitChar_isDigit n h
    · rw [if_neg h]
      intro c hc
      rcases List.mem_append.mp hc with hc | hc
      · exact ih (n / 10) (Nat.div_lt_self (by omega) (by omega)) c hc
      · rw [List.mem_singleton] at hc
        subst hc
        exact digitChar_isDigit (n % 10) (Nat.mod_lt n (by omega))

theorem natDigitChars_not_whitespace (n : Nat) :
    ∀ c ∈ natDigitChars n, c.isWhitespace = false := by
  induction n using Nat.strong_induction_on with
  | _ n ih =>
    rw [natDigitChars]
    by_cases h : n < 10
    · rw [if_pos h]
      intro c hc
      rw [List.mem_singleton] at hc
      subst hc
      exact digitChar_not_whitespace n h
    · rw [if_neg h]
      intro c hc
      rcases List.mem_append.mp hc with hc | hc
      · exact ih (n / 10) (Nat.div_lt_self (by omega) (by omega)) c hc
      · rw [List.mem_singleton] at hc
        subst hc
        exact digitChar_not_whitespace (n % 10) (Nat.mod_lt n (by omega))

theorem natDigitChars_ne_nil (n : Nat) : natDigitChars n ≠ [] := by
  rw [natDigitChars]
  by_cases h : n < 10
  · rw [if_pos h]
    simp
  · rw [if_neg h]
    simp

theorem digitsToNat_append_last (xs : List Char) (c : Char) :
    digitsToNat (xs ++ [c]) = (digitsToNat xs) * 10 + (c.toNat - 48) := by
  unfold digitsToNat
  rw [List.foldl_append]
  rfl

theorem digitsToNat_natDigitChars (n : Nat) : digitsToNat (natDigitChars n) = n := by
  induction n using Nat.strong_induction_on with
  | _ n ih =>
    rw [natDigitChars]
    by_cases h : n < 10
    · rw [if_pos h]
      show digitsToNat ([] ++ [Char.ofNat (48 + n)]) = n
      rw [digitsToNat_append_last, digitChar_toNat n h]
      simp [digitsToNat]
    · rw [if_neg h]
      rw [digitsToNat_append_last, digitChar_toNat (n % 10) (Nat.mod_lt n (by omega))]
      rw [ih (n / 10) (Nat.div_lt_self (by omega) (by omega))]
      omega

theorem takeWhile_append_all {α : Type} (p : α → Bool) :
    ∀ (ds rest : List α), (∀ c ∈ ds, p c = true) →
      (ds ++ rest).takeWhile p = ds ++ rest.takeWhile p := by
  intro ds
  induction ds with
  | nil => intro rest _; rfl
  | cons d ds ih =>
    intro rest hall
    rw [List.cons_append, List.takeWhile_cons, hall d (by simp)]
    simp only [if_true, ite_true]
    rw [ih rest (fun c hc => hall c (by simp [hc])), List.cons_append]

theorem dropWhile_append_all {α : Type} (p : α → Bool) :
    ∀ (ds rest : List α), (∀ c ∈ ds, p c = true) →
      (ds ++ rest).dropWhile p = rest.dropWhile p := by
  intro ds
  induction ds with
  | nil => intro rest _; rfl
  | cons d ds ih =>
    intro rest hall
    rw [List.cons_append, List.dropWhile_cons, hall d (by simp)]
    simp only [if_true, ite_true]
    exact ih rest (fun c hc => hall c (by simp [hc]))

theorem durComponent_nil (target : Char) : durComponent target [] = (none, []) := rfl

theorem durComponent_nondigit_head (target c : Char) (cs : List Char)
    (h : c.isDigit = false) : durComponent target (c :: cs) = (none, c :: cs) := by
  unfold durComponent
  rw [List.takeWhile_cons, List.dropWhile_cons, h]
  simp

theorem durComponent_digits_letter (target letter : Char) (n : Nat) (tail : List Char)
    (hnd : letter.isDigit = false) (hmatch : letter.toLower = target) :
    durComponent target (natDigitChars n ++ letter :: tail) = (some n, tail) := by
  unfold durComponent
  rw [takeWhile_append_all Char.isDigit (natDigitChars n) (letter :: tail) (natDigitChars_digits n)]
  rw [dropWhile_append_all Char.isDigit (natDigitChars n) (letter :: tail) (natDigitChars_digits n)]
  rw [List.takeWhile_cons, List.dropWhile_cons, hnd]
  simp only [Bool.false_eq_true, if_false, ite_false, List.append_nil]
  rw [if_pos ⟨natDigitChars_ne_nil n, hmatch⟩]
  rw [digitsToNat_natDigitChars]

theorem durComponent_digits_wrong (target letter : Char) (n : Nat) (tail : List Char)
    (hnd : letter.isDigit = false) (hne : letter.toLower ≠ target) :
    durComponent target (natDigitChars n ++ letter :: tail) =
      (none, natDigitChars n ++ letter :: tail) := by
  unfold durComponent
  rw [takeWhile_append_all Char.isDigit (natDigitChars n) (letter :: tail) (natDigitChars_digits n)]
  rw [dropWhile_append_all Char.isDigit (natDigitChars n) (letter :: tail) (natDigitChars_digits n)]
  rw [List.takeWhile_cons, List.dropWhile_cons, hnd]
  simp only [Bool.false_eq_true, if_false, ite_false, List.append_nil]
  rw [if_neg (fun hcon => hne hcon.2)]

/-- Parse a rendered component against its own unit letter: the captured
group is exactly the rendered value and the remainder is the tail. -/
theorem durComponent_render (target letter : Char) (x : Option Nat) (tail : List Char)
    (hnd : letter.isDigit = false) (hmatch : letter.toLower = target)
    (htail : x = none → durComponent target tail = (none, tail)) :
    durComponent target (renderComp letter x ++ tail) = (x, tail) := by
  cases x with
  | none =>
    rw [renderComp, List.nil_append]
    exact htail rfl
  | some n =>
    rw [renderComp, List.append_assoc, List.singleton_append]
    exact durComponent_digits_letter target letter n tail hnd hmatch

/-- Skip a rendered component whose unit letter is not the target. -/
theorem durComponent_render_skip (target letter : Char) (x : Option Nat) (tail : List Char)
    (hnd : letter.isDigit = false) (hne : letter.toLower ≠ target)
    (htail : durComponent target tail = (none, tail)) :
    durComponent target (renderComp letter x ++ tail) =
      (none, renderComp letter x ++ tail) := by
  cases x with
  | none =>
    rw [renderComp, List.nil_append]
    exact htail
  | some n =>
    rw [renderComp, List.append_assoc, List.singleton_append]
    exact durComponent_digits_wrong target letter n tail hnd hne

theorem trimChars_eq_self (cs : List Char) (h : ∀ c ∈ cs, c.isWhitespace = false) :
    trimChars cs = cs := by
  unfold trimChars
  rw [dropWhile_eq_self_of_all Char.isWhitespace cs h]
  rw [dropWhile_eq_self_of_all Char.isWhitespace cs.reverse
    (fun c hc => h c (List.mem_reverse.mp hc))]
  exact List.reverse_reverse cs

theorem caseD_toLower (lower : Bool) : (caseChar lower 'D').toLower = 'd' := by
  revert lower
  decide

theorem caseT_toLower (lower : Bool) : (caseChar lower 'T').toLower = 't' := by
  revert lower
  decide

theorem caseH_toLower (lower : Bool) : (caseChar lower 'H').toLower = 'h' := by
  revert lower
  decide

theorem caseM_toLower (lower : Bool) : (caseChar lower 'M').toLower = 'm' := by
  revert lower
  decide

theorem caseS_toLower (lower : Bool) : (caseChar lower 'S').toLower = 's' := by
  revert lower
  decide

theorem caseP_toLower (lower : Bool) : (caseChar lower 'P').toLower = 'p' := by
  revert lower
  decide

theorem caseD_not_digit (lower : Bool) : (caseChar lower 'D').isDigit = false := by
  revert lower
  decide

theorem caseT_not_digit (lower : Bool) : (caseChar lower 'T').isDigit = false := by
  revert lower
  decide

theorem caseH_not_digit (lower : Bool) : (caseChar lower 'H').isDigit = false := by
  revert lower
  decide

theorem caseM_not_digit (lower : Bool) : (caseChar lower 'M').isDigit = false := by
  revert lower
  decide

theorem caseS_not_digit (lower : Bool) : (caseChar lower 'S').isDigit = false := by
  revert lower
  decide

theorem duration_roundtrip (lower : Bool) (d : Option Nat)
    (tpart : Option (Option Nat × Option Nat × Option Nat)) :
    parse_duration ((renderDuration lower d tpart).data) =
      some (d.getD 0, (tpart.getD (none, none, none)).1.getD 0,
        (tpart.getD (none, none, none)).2.1.getD 0,
        (tpart.getD (none, none, none)).2.2.getD 0) := by
  show parse_duration (caseChar lower 'P' ::
      (renderComp (caseChar lower 'D') d ++ tPartChars lower tpart)) = _
  unfold parse_duration
  dsimp only
  rw [if_pos (caseP_toLower lower)]
  have hd : durComponent 'd' (renderComp (caseChar lower 'D') d ++ tPartChars lower tpart) =
      (d, tPartChars lower tpart) := by
    apply durComponent_render 'd' _ _ _ (caseD_not_digit lower) (caseD_toLower lower)
    intro _
    cases tpart with
    | none => exact durComponent_nil 'd'
    | some x =>
      obtain ⟨h, m, s⟩ := x
      exact durComponent_nondigit_head 'd' _ _ (caseT_not_digit lower)
  rw [hd]
  dsimp only
  cases tpart with
  | none =>
    dsimp only [tPartChars]
    simp
  | some x =>
    obtain ⟨h, m, s⟩ := x
    dsimp only [tPartChars]
    rw [if_pos (caseT_toLower lower)]
    have hs0 : durComponent 's' (renderComp (caseChar lower 'S') s) =
        (s, []) := by
      have := durComponent_render 's' (caseChar lower 'S') s []
        (caseS_not_digit lower) (caseS_toLower lower) (fun _ => durComponent_nil 's')
      simpa using this
    have hskipSh : durComponent 'h' (renderComp (caseChar lower 'S') s) =
        (none, renderComp (caseChar lower 'S') s) := by
      have := durComponent_render_skip 'h' (caseChar lower 'S') s []
        (caseS_not_digit lower) (by rw [caseS_toLower lower]; decide) (durComponent_nil 'h')
      simpa using this
    have hskipSm : durComponent 'm' (renderComp (caseChar lower 'S') s) =
        (none, renderComp (caseChar lower 'S') s) := by
      have := durComponent_render_skip 'm' (caseChar lower 'S') s []
        (caseS_not_digit lower) (by rw [caseS_toLower lower]; decide) (durComponent_nil 'm')
      simpa using this
    have hh : durComponent 'h' (renderComp (caseChar lower 'H') h ++
        (renderComp (caseChar lower 'M') m ++ renderComp (caseChar lower 'S') s)) =
        (h, renderComp (caseChar lower 'M') m ++ renderComp (caseChar lower 'S') s) := by
      apply durComponent_render 'h' _ _ _ (caseH_not_digit lower) (caseH_toLower lower)
      intro _
      exact durComponent_render_skip 'h' (caseChar lower 'M') m _
        (caseM_not_digit lower) (by rw [caseM_toLower lower]; decide) hskipSh
    rw [hh]
    dsimp only
    have hm : durComponent 'm' (renderComp (caseChar lower 'M') m ++
        renderComp (caseChar lower 'S') s) =
        (m, renderComp (caseChar lower 'S') s) := by
      apply durComponent_render 'm' _ _ _ (caseM_not_digit lower) (caseM_toLower lower)
      intro _
      exact hskipSm
    rw [hm]
    dsimp only
    rw [hs0]
    dsimp only
    rw [if_pos rfl]
    simp

theorem renderComp_not_whitespace (letter : Char) (x : Option Nat)
    (hl : letter.isWhitespace = false) :
    ∀ c ∈ renderComp letter x, c.isWhitespace = false := by
  cases x with
  | none =>
    intro c hc
    simp [renderComp] at hc
  | some n =>
    intro c hc
    rw [renderComp] at hc
    rcases List.mem_append.mp hc with hc | hc
    · exact natDigitChars_not_whitespace n c hc
    · rw [List.mem_singleton] at hc
      subst hc
      exact hl

theorem renderDuration_not_whitespace (lower : Bool) (d : Option Nat)
    (tpart : Option (Option Nat × Option Nat × Option Nat)) :
    ∀ c ∈ (renderDuration lower d tpart).data, c.isWhitespace = false := by
  have hP : (caseChar lower 'P').isWhitespace = false := by revert lower; decide
  have hD : (caseChar lower 'D').isWhitespace = false := by revert lower; decide
  have hT : (caseChar lower 'T').isWhitespace = false := by revert lower; decide
  have hH : (caseChar lower 'H').isWhitespace = false := by revert lower; decide
  have hM : (caseChar lower 'M').isWhitespace = false := by revert lower; decide
  have hS : (caseChar lower 'S').isWhitespace = false := by revert lower; decide
  intro c hc
  have hc' : c = caseChar lower 'P'
      ∨ c ∈ renderComp (caseChar lower 'D') d ++ tPartChars lower tpart := by
    simpa [renderDuration] using hc
  rcases hc' with rfl | hc'
  · exact hP
  rcases List.mem_append.mp hc' with hc' | hc'
  · exact renderComp_not_whitespace _ d hD c hc'
  cases tpart with
  | none => simp [tPartChars] at hc'
  | some x =>
    obtain ⟨h, m, s⟩ := x
    rw [tPartChars] at hc'
    rcases List.mem_cons.mp hc' with rfl | hc'
    · exact hT
    rcases List.mem_append.mp hc' with hc' | hc'
    · exact renderComp_not_whitespace _ h hH c hc'
    rcases List.mem_append.mp hc' with hc' | hc'
    · exact renderComp_not_whitespace _ m hM c hc'
    · exact renderComp_not_whitespace _ s hS c hc'

/-- C9: `duration_to_minutes` parses every string of the form
`P[nD][T[nH][nM][nS]]` (upper- or lower-case) and returns
days*1440 + hours*60 + minutes + seconds/60 (integer division) when
that total is positive, and `None` when the total is zero; in
particular `PT1H30M` gives 90 and `PT0S` gives `None`. -/
theorem duration_to_minutes_spec (lower : Bool) (d : Option Nat)
    (tpart : Option (Option Nat × Option Nat × Option Nat)) :
    (duration_to_minutes (some (renderDuration lower d tpart)) =
      (if 0 < (d.getD 0) * 1440 + ((tpart.getD (none, none, none)).1.getD 0) * 60
            + (tpart.getD (none, none, none)).2.1.getD 0
            + ((tpart.getD (none, none, none)).2.2.getD 0) / 60
        then some ((d.getD 0) * 1440 + ((tpart.getD (none, none, none)).1.getD 0) * 60
            + (tpart.getD (none, none, none)).2.1.getD 0
            + ((tpart.getD (none, none, none)).2.2.getD 0) / 60)
        else none))
    ∧ duration_to_minutes (some "PT1H30M") = some 90
    ∧ duration_to_minutes (some "PT0S") = none := by
  refine ⟨?_, by decide, by decide⟩
  unfold duration_to_minutes
  dsimp only
  have hne : (renderDuration lower d tpart).data ≠ [] := by
    rw [renderDuration]
    simp
  rw [if_neg hne]
  rw [trimChars_eq_self _ (renderDuration_not_whitespace lower d tpart)]
  rw [duration_roundtrip lower d tpart]
  dsimp only
  have harith : (d.getD 0) * 24 * 60 = (d.getD 0) * 1440 := by ring
  rw [harith]

theorem duration_to_minutes_spec_witness :
    duration_to_minutes (some (renderDuration false (some 1) (some (some 2, none, some 90)))) =
      some 1561 :=
  ((duration_to_minutes_spec false (some 1) (some (some 2, none, some 90))).1).trans (by decide)

/-- Decoded JSON values as `json.loads` produces them (numbers restricted
to integers, the only numeric values the verified claims touch). -/
inductive Json where
  | null
  | bool (b : Bool)
  | num (n : Int)
  | str (s : String)
  | arr (items : List Json)
  | obj (fields : List (String × Json))

/-- Decimal rendering of a Python int. -/
def intToDecimalString (n : Int) : String :=
  if n < 0 then "-" ++ ⟨natDigitChars (-n).toNat⟩ else ⟨natDigitChars n.toNat⟩

mutual

/-- Python `repr` of a decoded JSON value (string escaping approximated;
only ever consulted through `pyStr` on strings in the verified paths). -/
def pyRepr : Json → String
  | .null => "None"
  | .bool true => "True"
  | .bool false => "False"
  | .num n => intToDecimalString n
  | .str s => "'" ++ s ++ "'"
  | .arr items => "[" ++ pyReprList items ++ "]"
  | .obj fields => "\x7b" ++ pyReprFields fields ++ "\x7d"

def pyReprList : List Json → String
  | [] => ""
  | [j] => pyRepr j
  | j :: rest => pyRepr j ++ ", " ++ pyReprList rest

def pyReprFields : List (String × Json) → String
  | [] => ""
  | [(k, v)] => "'" ++ k ++ "': " ++ pyRepr v
  | (k, v) :: rest => "'" ++ k ++ "': " ++ pyRepr v ++ ", " ++ pyReprFields rest

end

/-- Python `str` of a decoded JSON value. -/
def pyStr (j : Json) : String :=
  match j with
  | .str s => s
  | _ => pyRepr j

/-- Python truthiness of a decoded JSON value. -/
def Json.truthy : Json → Bool
  | .null => false
  | .bool b => b
  | .num n => decide (n ≠ 0)
  | .str s => decide (s ≠ "")
  | .arr items => !items.isEmpty
  | .obj fields => !fields.isEmpty

/-- `Json.null` test (`item is None` in Python, since `json.loads` maps
JSON null to `None`). -/
def Json.isNull : Json → Bool
  | .null => true
  | _ => false

/-- `node.get(key)` on a decoded JSON object: a missing key and a JSON
null value both read as Python `None`. -/
def Json.getVal : Json → String → Option Json
  | .obj fields, key =>
    match fields.lookup key with
    | some .null => none
    | v => v
  | _, _ => none

/-- `key in node` plus `node[key]`: raw lookup that keeps JSON null. -/
def Json.getRaw : Json → String → Option Json
  | .obj fields, key => fields.lookup key
  | _, _ => none

/-- Python `a or b` over two `get` results. -/
def pyOr (a b : Option Json) : Option Json :=
  match a with
  | some v => if v.truthy then some v else b
  | none => b

/-- `parse.jsonld._has_recipe_type`. -/
def has_recipe_type (node : Json) : Bool :=
  let type_field := pyOr (node.getVal "@type") (node.getVal "type")
  match type_field with
  | some (.arr ts) => ts.any fun t => decide (strLower (pyStr t) = "recipe")
  | some (.str s) => decide (strLower s = "recipe")
  | _ => false

mutual

/-- `parse.jsonld._flatten_graph`. -/
def flatten_graph : Json → List Json
  | .arr items => flatten_graph_list items
  | .obj fields =>
    (if has_recipe_type (.obj fields) then [Json.obj fields] else [])
      ++ flatten_graph_fields fields
  | _ => []

def flatten_graph_list : List Json → List Json
  | [] => []
  | j :: rest => flatten_graph j ++ flatten_graph_list rest

/-- The `"@graph" in payload and isinstance(payload["@graph"], list)`
branch, walking the object's bindings for the first `"@graph"` key (dict
keys are unique). -/
def flatten_graph_fields : List (String × Json) → List Json
  | [] => []
  | (k, v) :: rest =>
    if k = "@graph" then
      match v with
      | .arr entries => flatten_graph_list entries
      | _ => []
    else flatten_graph_fields rest

end

/-- `parse.jsonld._extract_instructions`. -/
def extract_instructions (raw : Option Json) : List String :=
  match raw with
  | none => []
  | some (.str s) => [s]
  | some (.arr items) =>
    items.filterMap fun item =>
      match item with
      | .str s => some s
      | .obj fields =>
        (match fields.lookup "text" with
          | some (.str s) => some s
          | _ => none)
      | _ => none
  | some (.obj fields) =>
    (match fields.lookup "text" with
      | some (.str s) => [s]
      | _ => [])
  | some _ => []

/-- `parse.jsonld._extract_image`. -/
def extract_image (node : Json) : Option String :=
  match node.getVal "image" with
  | some (.str s) => some s
  | some (.arr (first :: _)) =>
    (match first with
      | .str s => some s
      | .obj fields =>
        (match fields.lookup "url" with
          | some (.str u) => some u
          | _ => none)
      | _ => none)
  | some (.obj fields) =>
    (match fields.lookup "url" with
      | some (.str u) => some u
      | _ => none)
  | _ => none

/-- `parse.jsonld._extract_author`. -/
def extract_author (node : Json) : Option String :=
  match node.getVal "author" with
  | some (.str s) => some s
  | some (.arr (first :: _)) =>
    (match first with
      | .str s => some s
      | .obj fields =>
        (match fields.lookup "name" with
          | some (.str u) => some u
          | _ => none)
      | _ => none)
  | some (.obj fields) =>
    (match fields.lookup "name" with
      | some (.str u) => some u
      | _ => none)
  | _ => none

theorem length_dropWhile_le {α : Type} (p : α → Bool) :
    ∀ l : List α, (l.dropWhile p).length ≤ l.length := by
  intro l
  induction l with
  | nil => simp
  | cons h t ih =>
    rw [List.dropWhile_cons]
    by_cases hp : p h = true
    · rw [if_pos hp]
      simp only [List.length_cons]
      omega
    · rw [if_neg hp]

mutual

/-- `re.sub(r"\s+", " ", value)`: collapse every whitespace run into a
single space (`skip_ws` consumes the rest of a run). -/
def collapse_ws : List Char → List Char
  | [] => []
  | c :: rest =>
    if c.isWhitespace then ' ' :: skip_ws rest
    else c :: collapse_ws rest

def skip_ws : List Char → List Char
  | [] => []
  | c :: rest =>
    if c.isWhitespace then skip_ws rest
    else c :: collapse_ws rest

end

/-- `utils.text.normalize_whitespace`. -/
def normalize_whitespace (value : Option String) : Option String :=
  match value with
  | none => none
  | some v =>
    let collapsed := strTrim ⟨collapse_ws v.data⟩
    if collapsed.data = [] then none else some collapsed

/-- `utils.text.clean_lines`. -/
def clean_lines (items : List String) : List String :=
  items.filterMap fun item => normalize_whitespace (some item)

/-- The loosely-typed raw-field dict produced by the extraction
strategies (modelled as a typed record per the spec's design notes;
absent dict keys and Python `None` values both read as `none`/`[]`). -/
structure RawRecipe where
  title : Option String
  ingredients : List Json
  steps : List String
  servings : Option Json
  prep_time : Option Json
  cook_time : Option Json
  total_time : Option Json
  image_url : Option String
  author : Option String

/-- The empty raw dict `{"title": None, "ingredients": [], "steps": []}`
synthesized by the pipeline when no strategy produced data. -/
def emptyRawRecipe : RawRecipe :=
  { title := none, ingredients := [], steps := [], servings := none,
    prep_time := none, cook_time := none, total_time := none,
    image_url := none, author := none }

/-- The result-dict construction at the end of `extract_from_jsonld` for
one Recipe node. -/
def recipe_to_raw (recipe : Json) : RawRecipe :=
  { title :=
      (match recipe.getVal "name" with
        | some (.str s) => normalize_whitespace (some s)
        | _ => none),
    ingredients :=
      (match pyOr (recipe.getVal "recipeIngredient") (recipe.getVal "ingredients") with
        | some (.arr xs) => xs
        | _ => []),
    steps := extract_instructions (recipe.getVal "recipeInstructions"),
    servings := recipe.getVal "recipeYield",
    prep_time := recipe.getVal "prepTime",
    cook_time := recipe.getVal "cookTime",
    total_time := recipe.getVal "totalTime",
    image_url := extract_image recipe,
    author := extract_author recipe }

/-- `parse.jsonld.extract_from_jsonld`: the BeautifulSoup scan plus
`json.loads` of each `<script type="application/ld+json">` block is
external, so the input is the list of decoded payloads (`none` for a
block that failed to parse and is skipped). -/
def extract_from_jsonld : List (Option Json) → Option RawRecipe
  | [] => none
  | script :: rest =>
    match script with
    | none => extract_from_jsonld rest
    | some data =>
      let recipes := flatten_graph data
      let recipes := if recipes.isEmpty then
          (match data with
            | .obj fields => if has_recipe_type (.obj fields) then [Json.obj fields] else []
            | _ => [])
        else recipes
      let recipes := if recipes.isEmpty then
          (match data with
            | .arr entries =>
              entries.filter fun e =>
                match e with
                | .obj _ => has_recipe_type e
                | _ => false
            | _ => [])
        else recipes
      match recipes with
      | [] => extract_from_jsonld rest
      | recipe :: _ => some (recipe_to_raw recipe)

/-- `models.RecipeSource` (retrieval timestamp as an integer clock). -/
structure RecipeSource where
  url : String
  domain : String
  strategy : String
  retrieved_at : Int
deriving DecidableEq, Repr

/-- `models.RecipeDraft`. -/
structure RecipeDraft where
  title : Option String
  ingredients : List String
  steps : List String
  servings : Option String
  prep_time_minutes : Option Int
  cook_time_minutes : Option Int
  total_time_minutes : Option Int
  image_url : Option String
  author : Option String
  source : Option RecipeSource
deriving DecidableEq, Repr

/-- The `isinstance(raw, (str, int))` guard of `normalize_recipe`
(Python `bool` is a subtype of `int`). -/
def jsonAsTimeRaw : Option Json → Option Json
  | some (.str s) => some (.str s)
  | some (.num n) => some (.num n)
  | some (.bool b) => some (.bool b)
  | _ => none

/-- The `isinstance(raw, str)` guard. -/
def jsonAsStr : Option Json → Option String
  | some (.str s) => some s
  | _ => none

/-- `parse.normalize._extract_time_minutes` (an `int` passes through
verbatim, a `str` goes through `duration_to_minutes`; a Python `bool`
passes the `isinstance(value, int)` test and reads as 0/1). -/
def extract_time_minutes (value : Option Json) : Option Int :=
  match value with
  | none => none
  | some (.num n) => some n
  | some (.bool b) => some (if b then 1 else 0)
  | some (.str s) => (duration_to_minutes (some s)).map (fun k => (k : Int))
  | some _ => none

/-- `parse.normalize.normalize_recipe`. -/
def normalize_recipe (data : RawRecipe) (strategy source_url domain : String) (now : Int) :
    RecipeDraft :=
  { title := normalize_whitespace data.title,
    ingredients := clean_lines ((data.ingredients.filter (fun item => !item.isNull)).map pyStr),
    steps := clean_lines data.steps,
    servings := normalize_whitespace (jsonAsStr data.servings),
    prep_time_minutes := extract_time_minutes (jsonAsTimeRaw data.prep_time),
    cook_time_minutes := extract_time_minutes (jsonAsTimeRaw data.cook_time),
    total_time_minutes := extract_time_minutes (jsonAsTimeRaw data.total_time),
    image_url := normalize_whitespace data.image_url,
    author := normalize_whitespace data.author,
    source := some ⟨source_url, domain, strategy, now⟩ }

/-- `parse.confidence.BASE_SCORES` (float literals as exact rationals). -/
def BASE_SCORES (strategy : String) : ℚ :=
  if strategy = "jsonld" then 65/100
  else if strategy = "microdata" then 55/100
  else if strategy = "heuristic" then 35/100
  else if strategy = "headless_jsonld" then 60/100
  else if strategy = "headless_heuristic" then 40/100
  else 0

/-- Python truthiness of an `Optional[str]` field. -/
def optStrTruthy : Option String → Bool
  | some s => !s.isEmpty
  | none => false

/-- Python truthiness of an `Optional[int]` field. -/
def optIntTruthy : Option Int → Bool
  | some n => decide (n ≠ 0)
  | none => false

/-- Python `min` on floats (exact rationals here). -/
def pyMin (a b : ℚ) : ℚ := if a ≤ b then a else b

/-- Python `max` on floats (exact rationals here). -/
def pyMax (a b : ℚ) : ℚ := if a ≤ b then b else a

/-- `parse.confidence.compute_confidence`. -/
def compute_confidence (recipe : RecipeDraft) (strategy : String) :
    ℚ × List String × List String :=
  let score0 := BASE_SCORES strategy
  let score1 := if 3 ≤ recipe.ingredients.length then score0 + 10/100 else score0
  let score2 := if 2 ≤ recipe.steps.length then score1 + 10/100 else score1
  let score3 := if optStrTruthy recipe.title then score2 + 5/100 else score2
  let bonus_meta : ℚ :=
    (if optStrTruthy recipe.image_url then (2 : ℚ)/100 else 0)
      + (if optStrTruthy recipe.servings then (2 : ℚ)/100 else 0)
      + (if optIntTruthy recipe.prep_time_minutes then (2 : ℚ)/100 else 0)
      + (if optIntTruthy recipe.cook_time_minutes then (2 : ℚ)/100 else 0)
      + (if optIntTruthy recipe.total_time_minutes then (2 : ℚ)/100 else 0)
  let score4 := score3 + pyMin bonus_meta (10/100)
  let score5 := if 60 < recipe.ingredients.length then score4 - 10/100 else score4
  let score6 := if 50 < recipe.steps.length then score5 - 10/100 else score5
  let text_blob := strLower (strJoinSpace (recipe.ingredients ++ recipe.steps))
  let score7 :=
    if strContainsSub text_blob "subscribe" || strContainsSub text_blob "sign in"
        || strContainsSub text_blob "enable javascript" then
      score6 - 15/100
    else score6
  let missing_fields :=
    (if !optStrTruthy recipe.title then ["title"] else [])
      ++ (if recipe.ingredients.isEmpty then ["ingredients"] else [])
      ++ (if recipe.steps.isEmpty then ["steps"] else [])
  let warnings :=
    (if recipe.ingredients.isEmpty then ["MISSING_INGREDIENTS"] else [])
      ++ (if recipe.steps.isEmpty then ["MISSING_STEPS"] else [])
      ++ (if strStartsWith strategy "headless" then ["JS_RENDERING_REQUIRED_SUSPECTED"] else [])
      ++ (if strategy = "heuristic" ∨ strategy = "headless_heuristic" then
            ["HEURISTIC_EXTRACTION_USED"]
          else [])
  let score8 := pyMax 0 (pyMin score7 1)
  let warnings2 := if score8 < 65/100 then warnings ++ ["LOW_CONFIDENCE"] else warnings
  (score8, warnings2, missing_fields)

/-- The JSON-LD Recipe node of the spec's end-to-end example. -/
def testChiliNode : Json :=
  .obj [("@context", .str "https://schema.org"),
        ("@type", .str "Recipe"),
        ("name", .str "Test Chili"),
        ("recipeIngredient", .arr [.str "1 lb beef", .str "1 onion"]),
        ("recipeInstructions", .arr
          [.obj [("@type", .str "HowToStep"), ("text", .str "Brown the beef.")],
           .obj [("@type", .str "HowToStep"), ("text", .str "Simmer for an hour.")]]),
        ("totalTime", .str "PT1H")]

theorem testChili_draft (url domain : String) (now : Int) :
    normalize_recipe (recipe_to_raw testChiliNode) "jsonld" url domain now
      = { title := some "Test Chili", ingredients := ["1 lb beef", "1 onion"],
          steps := ["Brown the beef.", "Simmer for an hour."], servings := none,
          prep_time_minutes := none, cook_time_minutes := none, total_time_minutes := some 60,
          image_url := none, author := none,
          source := some ⟨url, domain, "jsonld", now⟩ } := rfl

theorem testChili_confidence :
    compute_confidence
      { title := some "Test Chili", ingredients := ["1 lb beef", "1 onion"],
        steps := ["Brown the beef.", "Simmer for an hour."], servings := none,
        prep_time_minutes := none, cook_time_minutes := none, total_time_minutes := some 60,
        image_url := none, author := none,
        source := none } "jsonld" = (82/100, [], []) := by
  have hblob : (strContainsSub (strLower (strJoinSpace
        (["1 lb beef", "1 onion"] ++ ["Brown the beef.", "Simmer for an hour."]))) "subscribe"
      || strContainsSub (strLower (strJoinSpace
        (["1 lb beef", "1 onion"] ++ ["Brown the beef.", "Simmer for an hour."]))) "sign in"
      || strContainsSub (strLower (strJoinSpace
        (["1 lb beef", "1 onion"] ++ ["Brown the beef.", "Simmer for an hour."]))) "enable javascript") = false := by
    decide
  have h1 : "Test Chili".isEmpty = false := by decide
  have h2 : ("jsonld" = "heuristic" ∨ "jsonld" = "headless_heuristic") = False := by
    simp only [eq_iff_iff, iff_false]
    decide
  simp only [compute_confidence, BASE_SCORES, hblob, h1, h2]
  norm_num [optStrTruthy, optIntTruthy, pyMin, pyMax, strStartsWith, listStartsWith, h1]

/-- C8: for a document whose (single) JSON-LD script block holds a
Recipe node named "Test Chili" with two ingredients, two `HowToStep`
instructions and `totalTime = "PT1H"`, the structured-data strategy
followed by normalization yields exactly that title, those two
ingredients verbatim, two step strings, a total time of 60 minutes, and
a confidence of at least 0.65 with no missing-steps warning. -/
theorem jsonld_test_chili_spec (url domain : String) (now : Int) :
    extract_from_jsonld [some testChiliNode] = some (recipe_to_raw testChiliNode)
    ∧ (normalize_recipe (recipe_to_raw testChiliNode) "jsonld" url domain now).title
        = some "Test Chili"
    ∧ (normalize_recipe (recipe_to_raw testChiliNode) "jsonld" url domain now).ingredients
        = ["1 lb beef", "1 onion"]
    ∧ (normalize_recipe (recipe_to_raw testChiliNode) "jsonld" url domain now).steps
        = ["Brown the beef.", "Simmer for an hour."]
    ∧ (normalize_recipe (recipe_to_raw testChiliNode) "jsonld" url domain now).total_time_minutes
        = some 60
    ∧ (65 : ℚ)/100 ≤
        (compute_confidence (normalize_recipe (recipe_to_raw testChiliNode) "jsonld" url domain now)
          "jsonld").1
    ∧ "MISSING_STEPS" ∉
        (compute_confidence (normalize_recipe (recipe_to_raw testChiliNode) "jsonld" url domain now)
          "jsonld").2.1 := by
  have hdraft := testChili_draft url domain now
  have hcc : compute_confidence
      (normalize_recipe (recipe_to_raw testChiliNode) "jsonld" url domain now) "jsonld"
      = compute_confidence
        { title := some "Test Chili", ingredients := ["1 lb beef", "1 onion"],
          steps := ["Brown the beef.", "Simmer for an hour."], servings := none,
          prep_time_minutes := none, cook_time_minutes := none, total_time_minutes := some 60,
          image_url := none, author := none,
          source := none } "jsonld" := rfl
  refine ⟨rfl, rfl, rfl, rfl, rfl, ?_, ?_⟩
  · rw [hcc, testChili_confidence]
    norm_num
  · rw [hcc, testChili_confidence]
    simp

/-- C10 counterexample: a raw integer time of 0 is recorded as 0 minutes
by normalization, not as absent — refuting the claim that every raw
value whose conversion yields zero total minutes is recorded as `None`.
-/
theorem zero_integer_time_counterexample :
    (normalize_recipe { emptyRawRecipe with prep_time := some (.num 0) } "jsonld"
        "https://e.test/r" "e.test" 0).prep_time_minutes = some 0
    ∧ some (0 : Int) ≠ (none : Option Int) :=
  ⟨rfl, by decide⟩

/-- C10 (amended): in prep/cook/total time conversion an integer raw
value is taken as already-minutes and recorded verbatim — zero included
— while a string raw value is parsed as an ISO-8601 duration via
`duration_to_minutes`, which never yields zero: a string whose parsed
total is zero is recorded as absent. -/
theorem time_conversion_amended (data : RawRecipe) (strategy url domain : String) (now : Int) :
    (∀ n : Int, data.prep_time = some (.num n) →
        (normalize_recipe data strategy url domain now).prep_time_minutes = some n)
    ∧ (∀ n : Int, data.cook_time = some (.num n) →
        (normalize_recipe data strategy url domain now).cook_time_minutes = some n)
    ∧ (∀ n : Int, data.total_time = some (.num n) →
        (normalize_recipe data strategy url domain now).total_time_minutes = some n)
    ∧ (∀ s : String, data.prep_time = some (.str s) →
        (normalize_recipe data strategy url domain now).prep_time_minutes =
          (duration_to_minutes (some s)).map (fun k => (k : Int)))
    ∧ (∀ s : String, data.cook_time = some (.str s) →
        (normalize_recipe data strategy url domain now).cook_time_minutes =
          (duration_to_minutes (some s)).map (fun k => (k : Int)))
    ∧ (∀ s : String, data.total_time = some (.str s) →
        (normalize_recipe data strategy url domain now).total_time_minutes =
          (duration_to_minutes (some s)).map (fun k => (k : Int)))
    ∧ (∀ d : Option String, duration_to_minutes d ≠ some 0) := by
  refine ⟨?_, ?_, ?_, ?_, ?_, ?_, ?_⟩
  · intro n h
    simp [normalize_recipe, h, jsonAsTimeRaw, extract_time_minutes]
  · intro n h
    simp [normalize_recipe, h, jsonAsTimeRaw, extract_time_minutes]
  · intro n h
    simp [normalize_recipe, h, jsonAsTimeRaw, extract_time_minutes]
  · intro s h
    simp [normalize_recipe, h, jsonAsTimeRaw, extract_time_minutes]
  · intro s h
    simp [normalize_recipe, h, jsonAsTimeRaw, extract_time_minutes]
  · intro s h
    simp [normalize_recipe, h, jsonAsTimeRaw, extract_time_minutes]
  · intro d hcon
    cases d with
    | none => simp [duration_to_minutes] at hcon
    | some s =>
      unfold duration_to_minutes at hcon
      dsimp only at hcon
      by_cases hemp : s.data = []
      · rw [if_pos hemp] at hcon
        exact Option.noConfusion hcon
      · rw [if_neg hemp] at hcon
        cases hp : parse_duration (trimChars s.data) with
        | none =>
          rw [hp] at hcon
          exact Option.noConfusion hcon
        | some q =>
          obtain ⟨dd, hh, mm, ss⟩ := q
          rw [hp] at hcon
          dsimp only at hcon
          by_cases h0 : 0 < dd * 24 * 60 + hh * 60 + mm + ss / 60
          · rw [if_pos h0] at hcon
            injection hcon with hcon
            omega
          · rw [if_neg h0] at hcon
            exact Option.noConfusion hcon

def timeTestRaw : RawRecipe :=
  { emptyRawRecipe with
      prep_time := some (.num 7),
      cook_time := some (.str "PT0S"),
      total_time := some (.str "PT2H") }

theorem time_conversion_amended_witness :
    (normalize_recipe timeTestRaw "jsonld" "https://e.test/r" "e.test" 0).prep_time_minutes
        = some 7
    ∧ (normalize_recipe timeTestRaw "jsonld" "https://e.test/r" "e.test" 0).cook_time_minutes
        = none
    ∧ (normalize_recipe timeTestRaw "jsonld" "https://e.test/r" "e.test" 0).total_time_minutes
        = some 120 :=
  ⟨(time_conversion_amended timeTestRaw "jsonld" "https://e.test/r" "e.test" 0).1 7 rfl,
   ((time_conversion_amended timeTestRaw "jsonld" "https://e.test/r" "e.test" 0).2.2.2.2.1
      "PT0S" rfl).trans (by decide),
   ((time_conversion_amended timeTestRaw "jsonld" "https://e.test/r" "e.test" 0).2.2.2.2.2.1
      "PT2H" rfl).trans (by decide)⟩

/-- `fetch.headless.render_page_html`: the headless renderer is a stub
that never produces content. -/
def render_page_html (_url : String) (settings : Settings) : Option String :=
  if ¬ settings.enable_headless then none
  else none

theorem render_page_html_none (u : String) (settings : Settings) :
    render_page_html u settings = none := by
  unfold render_page_html
  split <;> rfl

/-- `security.url_validation.normalize_url` on URL strings: urlsplit /
urlunsplit round-trip with the fragment replaced by the empty string,
i.e. everything from the first `#` is dropped. -/
def normalize_url (url : String) : String :=
  ⟨url.data.takeWhile (fun c => c != '#')⟩

/-- The BeautifulSoup- and readability-based pieces the orchestrator
calls: the ld+json script scan plus `json.loads` per block, the
microdata and heuristic extractors, and `urlsplit(url).hostname`. They
are external to the verified core and enter as parameters. -/
structure PipelineEnv where
  scriptsOf : String → List (Option Json)
  microdataOf : String → Option RawRecipe
  heuristicOf : String → Option RawRecipe
  hostOf : String → Option String

/-- The response payload dict assembled by `run_pipeline`. -/
structure ResponsePayload where
  recipe : RecipeDraft
  confidence : ℚ
  warnings : List String
  missing_fields : List String

/-- `parse.pipeline.PipelineResult`. -/
structure PipelineResult where
  recipe_response : ResponsePayload
  strategy : String
  domain : String
  upstream_status : Int
  fetch_timing_ms : Int

/-- `list(dict.fromkeys(xs))`: deduplicate keeping first-seen order. -/
def dedup_first_aux : List String → List String → List String
  | _, [] => []
  | seen, x :: rest =>
    if x ∈ seen then dedup_first_aux seen rest
    else x :: dedup_first_aux (x :: seen) rest

/-- `list(dict.fromkeys(xs))`. -/
def dedup_first (xs : List String) : List String := dedup_first_aux [] xs

/-- `cached["recipe"]["source"]["strategy"] if cached.get("recipe") else
"cache"` (the payload always carries a recipe whose source is set by
normalization; the `"cache"` default mirrors the source's fallback). -/
def cached_strategy (p : ResponsePayload) : String :=
  match p.recipe.source with
  | some src => src.strategy
  | none => "cache"

/-- The matching domain read-back from a cached payload. -/
def cached_domain (p : ResponsePayload) : String :=
  match p.recipe.source with
  | some src => src.domain
  | none => ""

/-- The strategy-iteration loop of `run_pipeline`: run each configured
strategy in order, stop at the first that returns data; the `headless`
entry is skipped with a warning when the feature flag is off, the domain
is outside the allowlist, or rendering yields nothing. Returns the
extracted data, the recorded strategy label (`"unknown"` when none
succeeded), the accumulated warnings, and the html in use. -/
def strategy_loop (env : PipelineEnv) (settings : Settings) (domain final_url : String) :
    List String → String → List String → (Option RawRecipe × String × List String × String)
  | [], html, warnings => (none, "unknown", warnings, html)
  | strategy :: rest, html, warnings =>
    if strategy = "jsonld" then
      match extract_from_jsonld (env.scriptsOf html) with
      | some r => (some r, "jsonld", warnings, html)
      | none => strategy_loop env settings domain final_url rest html warnings
    else if strategy = "microdata" then
      match env.microdataOf html with
      | some r => (some r, "microdata", warnings, html)
      | none => strategy_loop env settings domain final_url rest html warnings
    else if strategy = "heuristic" then
      match env.heuristicOf html with
      | some r => (some r, "heuristic", warnings, html)
      | none => strategy_loop env settings domain final_url rest html warnings
    else if strategy = "headless" then
      if ¬ settings.enable_headless then
        strategy_loop env settings domain final_url rest html
          (warnings ++ ["JS_RENDERING_REQUIRED_SUSPECTED"])
      else if ¬ settings.headless_allowlist_domains.isEmpty
          ∧ ¬ settings.headless_allowlist_domains.contains (strLower domain) then
        strategy_loop env settings domain final_url rest html
          (warnings ++ ["JS_RENDERING_REQUIRED_SUSPECTED"])
      else
        match render_page_html final_url settings with
        | none =>
          strategy_loop env settings domain final_url rest html
            (warnings ++ ["JS_RENDERING_REQUIRED_SUSPECTED"])
        | some rendered =>
          if rendered.isEmpty then
            strategy_loop env settings domain final_url rest html
              (warnings ++ ["JS_RENDERING_REQUIRED_SUSPECTED"])
          else
            match extract_from_jsonld (env.scriptsOf rendered) with
            | some r => (some r, "headless_jsonld", warnings, rendered)
            | none =>
              match env.heuristicOf rendered with
              | some r => (some r, "headless_heuristic", warnings, rendered)
              | none => strategy_loop env settings domain final_url rest html warnings
    else strategy_loop env settings domain final_url rest html warnings

/-- `parse.pipeline.run_pipeline` (fetching is passed in as a fallible
function; the cache is threaded explicitly). -/
def run_pipeline (env : PipelineEnv) (settings : Settings)
    (fetchFn : String → Except ImporterError FetchResult)
    (cache : MemoryCache ResponsePayload) (url : String) (now : Int) :
    Except ImporterError (PipelineResult × MemoryCache ResponsePayload) :=
  let canonical_url := normalize_url url
  match cache.get canonical_url now with
  | (some cached, cache1) =>
    .ok ({ recipe_response := cached, strategy := cached_strategy cached,
           domain := cached_domain cached, upstream_status := 200, fetch_timing_ms := 0 },
      cache1)
  | (none, cache1) =>
    match fetchFn canonical_url with
    | .error e => .error e
    | .ok fetch_result =>
      let cache_key := normalize_url fetch_result.final_url
      match (if cache_key ≠ canonical_url then cache1.get cache_key now else (none, cache1)) with
      | (some cached, cache2) =>
        .ok ({ recipe_response := cached, strategy := cached_strategy cached,
               domain := cached_domain cached,
               upstream_status := fetch_result.upstream_status,
               fetch_timing_ms := fetch_result.elapsed_ms }, cache2)
      | (none, cache2) =>
        let domain := (env.hostOf fetch_result.final_url).getD ""
        let strategy_order :=
          ((strSplitComma settings.importer_strategy_order).map strTrim).filter
            (fun item => !item.isEmpty)
        match strategy_loop env settings domain fetch_result.final_url strategy_order
            fetch_result.content [] with
        | (recipe_data, used_strategy, warnings, _html) =>
          let data := match recipe_data with
            | some r => r
            | none => emptyRawRecipe
          let used_strategy2 := match recipe_data with
            | some _ => used_strategy
            | none => if used_strategy ≠ "unknown" then used_strategy else "heuristic"
          let warnings2 := match recipe_data with
            | some _ => warnings
            | none => warnings ++ ["NO_RECIPE_SCHEMA_FOUND"]
          let normalized := normalize_recipe data used_strategy2 fetch_result.final_url domain now
          let cc := compute_confidence normalized used_strategy2
          let response_payload : ResponsePayload :=
            { recipe := normalized, confidence := cc.1,
              warnings := dedup_first (warnings2 ++ cc.2.1), missing_fields := cc.2.2 }
          let cache3 := cache2.set cache_key response_payload now
          let cache4 :=
            if cache_key ≠ canonical_url then cache3.set canonical_url response_payload now
            else cache3
          .ok ({ recipe_response := response_payload, strategy := used_strategy2,
                 domain := domain, upstream_status := fetch_result.upstream_status,
                 fetch_timing_ms := fetch_result.elapsed_ms }, cache4)

theorem mem_dedup_first_aux (x : String) :
    ∀ (xs seen : List String), x ∈ dedup_first_aux seen xs ↔ (x ∈ xs ∧ x ∉ seen) := by
  intro xs
  induction xs with
  | nil =>
    intro seen
    simp [dedup_first_aux]
  | cons y rest ih =>
    intro seen
    unfold dedup_first_aux
    by_cases hy : y ∈ seen
    · rw [if_pos hy, ih seen]
      constructor
      · rintro ⟨h1, h2⟩
        exact ⟨by simp [h1], h2⟩
      · rintro ⟨h1, h2⟩
        rcases List.mem_cons.mp h1 with rfl | h1
        · exact absurd hy h2
        · exact ⟨h1, h2⟩
    · rw [if_neg hy]
      rw [List.mem_cons, ih (y :: seen)]
      by_cases hx : x = y
      · subst hx
        simp [hy]
      · simp only [hx, false_or]
        constructor
        · rintro ⟨h1, h2⟩
          refine ⟨by simp [h1], fun hc => h2 (by simp [hc])⟩
        · rintro ⟨h1, h2⟩
          rcases List.mem_cons.mp h1 with rfl | h1
          · exact absurd rfl hx
          · exact ⟨h1, by simp [hx, h2]⟩

theorem mem_dedup_first (x : String) (xs : List String) :
    x ∈ dedup_first xs ↔ x ∈ xs := by
  rw [dedup_first, mem_dedup_first_aux]
  simp

theorem strategy_loop_no_data (env : PipelineEnv) (settings : Settings)
    (domain final_url : String) :
    ∀ (order : List String) (html : String) (warnings : List String),
      extract_from_jsonld (env.scriptsOf html) = none →
      env.microdataOf html = none →
      env.heuristicOf html = none →
      ∃ w', strategy_loop env settings domain final_url order html warnings
          = (none, "unknown", w', html) := by
  intro order
  induction order with
  | nil =>
    intro html warnings _ _ _
    exact ⟨warnings, rfl⟩
  | cons strategy rest ih =>
    intro html warnings hjson hmicro hheur
    unfold strategy_loop
    by_cases h1 : strategy = "jsonld"
    · rw [if_pos h1, hjson]
      exact ih html warnings hjson hmicro hheur
    rw [if_neg h1]
    by_cases h2 : strategy = "microdata"
    · rw [if_pos h2, hmicro]
      exact ih html warnings hjson hmicro hheur
    rw [if_neg h2]
    by_cases h3 : strategy = "heuristic"
    · rw [if_pos h3, hheur]
      exact ih html warnings hjson hmicro hheur
    rw [if_neg h3]
    by_cases h4 : strategy = "headless"
    · rw [if_pos h4]
      by_cases h5 : ¬ settings.enable_headless
      · rw [if_pos h5]
        exact ih html _ hjson hmicro hheur
      rw [if_neg h5]
      by_cases h6 : ¬ settings.headless_allowlist_domains.isEmpty
          ∧ ¬ settings.headless_allowlist_domains.contains (strLower domain)
      · rw [if_pos h6]
        exact ih html _ hjson hmicro hheur
      · rw [if_neg h6, render_page_html_none]
        exact ih html _ hjson hmicro hheur
    · rw [if_neg h4]
      exact ih html warnings hjson hmicro hheur

/-- C7: when the fetch succeeds, both cache probes miss, and none of the
extraction strategies returns data, `run_pipeline` still returns a
successful result: it synthesizes an empty draft (no title, empty
ingredient and step lists), defaults the strategy label to the fixed
`"heuristic"` fallback, adds the `NO_RECIPE_SCHEMA_FOUND` warning, and
delivers the normalized empty recipe together with its confidence and
the accumulated warnings instead of raising an error. -/
theorem pipeline_no_strategy_graceful (env : PipelineEnv) (settings : Settings)
    (fetchFn : String → Except ImporterError FetchResult)
    (cache : MemoryCache ResponsePayload) (url : String) (now : Int) (fr : FetchResult)
    (hmiss1 : (cache.get (normalize_url url) now).1 = none)
    (hfetch : fetchFn (normalize_url url) = .ok fr)
    (hmiss2 : (((cache.get (normalize_url url) now).2).get (normalize_url fr.final_url) now).1
        = none)
    (hjson : extract_from_jsonld (env.scriptsOf fr.content) = none)
    (hmicro : env.microdataOf fr.content = none)
    (hheur : env.heuristicOf fr.content = none) :
    ∃ (pr : PipelineResult) (cache' : MemoryCache ResponsePayload),
      run_pipeline env settings fetchFn cache url now = .ok (pr, cache')
      ∧ pr.strategy = "heuristic"
      ∧ pr.recipe_response.recipe.title = none
      ∧ pr.recipe_response.recipe.ingredients = []
      ∧ pr.recipe_response.recipe.steps = []
      ∧ "NO_RECIPE_SCHEMA_FOUND" ∈ pr.recipe_response.warnings
      ∧ pr.recipe_response.confidence =
          (compute_confidence (normalize_recipe emptyRawRecipe "heuristic" fr.final_url
            ((env.hostOf fr.final_url).getD "") now) "heuristic").1
      ∧ pr.recipe_response.missing_fields = ["title", "ingredients", "steps"] := by
  have h1 : cache.get (normalize_url url) now = (none, (cache.get (normalize_url url) now).2) :=
    Prod.ext hmiss1 rfl
  obtain ⟨w', hloop⟩ := strategy_loop_no_data env settings
    ((env.hostOf fr.final_url).getD "") fr.final_url
    (((strSplitComma settings.importer_strategy_order).map strTrim).filter
      (fun item => !item.isEmpty))
    fr.content [] hjson hmicro hheur
  have hstrat : (if ("unknown" : String) ≠ "unknown" then ("unknown" : String) else "heuristic")
      = "heuristic" := by simp
  unfold run_pipeline
  dsimp only
  rw [h1]
  dsimp only
  rw [hfetch]
  dsimp only
  by_cases hkey : normalize_url fr.final_url ≠ normalize_url url
  · have h2 : (cache.get (normalize_url url) now).2.get (normalize_url fr.final_url) now
        = (none, ((cache.get (normalize_url url) now).2.get (normalize_url fr.final_url) now).2) :=
      Prod.ext hmiss2 rfl
    rw [if_pos hkey, h2]
    dsimp only
    rw [hloop]
    dsimp only
    rw [hstrat]
    refine ⟨_, _, rfl, rfl, rfl, rfl, rfl, ?_, rfl, rfl⟩
    dsimp only
    rw [mem_dedup_first]
    simp
  · rw [if_neg hkey]
    dsimp only
    rw [hloop]
    dsimp only
    rw [hstrat]
    refine ⟨_, _, rfl, rfl, rfl, rfl, rfl, ?_, rfl, rfl⟩
    dsimp only
    rw [mem_dedup_first]
    simp

def wEnv : PipelineEnv :=
  ⟨fun _ => [], fun _ => none, fun _ => none, fun _ => some "example.com"⟩

def wSettings : Settings :=
  { allowed_schemes := ["http", "https"], allowed_ports := [80, 443],
    blocked_hostnames := [], block_internal_suffixes := false, blocked_suffixes := [],
    redirect_limit := 3, max_html_bytes := 3000000, enable_headless := false,
    headless_allowlist_domains := [],
    importer_strategy_order := "jsonld,microdata,heuristic,headless" }

def wFetchResult : FetchResult :=
  ⟨"<html></html>", 200, 120, "https://example.com/r", 200⟩

def wCache : MemoryCache ResponsePayload := ⟨604800, fun _ => none⟩

theorem pipeline_no_strategy_graceful_witness :
    ∃ (pr : PipelineResult) (cache' : MemoryCache ResponsePayload),
      run_pipeline wEnv wSettings (fun _ => .ok wFetchResult) wCache
          "https://example.com/r#frag" 0 = .ok (pr, cache')
      ∧ pr.strategy = "heuristic"
      ∧ pr.recipe_response.recipe.title = none
      ∧ pr.recipe_response.recipe.ingredients = []
      ∧ pr.recipe_response.recipe.steps = []
      ∧ "NO_RECIPE_SCHEMA_FOUND" ∈ pr.recipe_response.warnings
      ∧ pr.recipe_response.confidence =
          (compute_confidence (normalize_recipe emptyRawRecipe "heuristic"
            wFetchResult.final_url ((wEnv.hostOf wFetchResult.final_url).getD "") 0)
            "heuristic").1
      ∧ pr.recipe_response.missing_fields = ["title", "ingredients", "steps"] :=
  pipeline_no_strategy_graceful wEnv wSettings (fun _ => .ok wFetchResult) wCache
    "https://example.com/r#frag" 0 wFetchResult rfl rfl rfl rfl rfl rfl
